import Mathlib

/-!
Verification of the transcode-job orchestrator ("optimized versions server").

The definitions below are a shallow embedding of the TypeScript sources:
`AppService` (job manager / scheduler / process supervisor glue),
`AppController.downloadTranscodedFile` (integrity-verified range download),
`CleanupService.handleCleanup` (orphan and expired-job sweeps) and
`FileRemoval.removeFile` (retryable delete).

Modelling conventions:
* Job ids, device ids and item ids are natural numbers (they are opaque
  strings in the source; `uuidv4()` is modelled by a fresh-id counter).
* Timestamps (`Date.now()` milliseconds) are naturals; progress, speed and
  video durations (floats in the source) are rationals.
* The `ffmpegProcesses` map is modelled as the list of job ids holding a
  live worker process (`Map.set` inserts without duplicating a key,
  `Map.delete` removes the key).
* A JavaScript `TypeError` from dereferencing an `undefined` job record is
  modelled explicitly: functions that can throw return an `Option`/sum, and
  an admission pass that would throw aborts with the mutations made so far,
  which is what the thrown exception does to the shared state.
* Spawning ffmpeg is modelled as succeeding (the process is registered when
  a job starts); the `close`/`error` listeners of the supervisor are
  modelled as separate handlers, with `close` events only ever delivered
  for a registered process.
-/

namespace OptimizedVersions

/-- Job status, from the `Job` interface of `app.service.ts`
(`pendingDownloadsLimit` is the source's `'pending downloads limit'`). -/
inductive Status
  | queued
  | optimizing
  | pendingDownloadsLimit
  | completed
  | failed
  | cancelled
  | readyForRemoval
deriving DecidableEq

/-- The `Job` record of `app.service.ts`.  The opaque `item` metadata blob is
not carried (no code path reads it). -/
structure Job where
  id : ℕ
  status : Status
  progress : ℚ
  outputPath : String
  inputUrl : String
  deviceId : ℕ
  itemId : ℕ
  timestamp : ℕ
  size : ℕ
  speed : Option ℚ
deriving DecidableEq

/-- Configuration read in the `AppService` constructor:
`MAX_CONCURRENT_JOBS`, `MAX_CACHED_PER_USER`,
`REMOVE_FILE_AFTER_RIGHT_DOWNLOAD`. -/
structure Config where
  maxConcurrentJobs : ℕ
  maxCachedPerUser : ℕ
  immediateRemoval : Bool
deriving DecidableEq

/-- Mutable fields of `AppService`: `activeJobs`, `optimizationHistory`,
`ffmpegProcesses` (as the list of registered job ids), `jobQueue`,
plus a fresh-id counter standing for `uuidv4()` and the current clock. -/
structure AppState where
  activeJobs : List Job
  optimizationHistory : List Job
  ffmpegProcesses : List ℕ
  jobQueue : List ℕ
  nextId : ℕ
  now : ℕ
deriving DecidableEq

/-- Source `this.activeJobs.find((job) => job.id === jobId)`. -/
def findJob (s : AppState) (jobId : ℕ) : Option Job :=
  s.activeJobs.find? (fun j => j.id = jobId)

/-- Source `this.activeJobs.filter((job) => job.status === 'optimizing').length`,
the count the scheduler compares against `maxConcurrentJobs`. -/
def countOptimizing (jobs : List Job) : ℕ :=
  jobs.countP (fun j => j.status = Status.optimizing)

/-- In-place mutation of the record(s) with a given id, as JavaScript
mutation of the found object appears to the `activeJobs` array. -/
def updJob (jobId : ℕ) (f : Job → Job) (jobs : List Job) : List Job :=
  jobs.map (fun j => if j.id = jobId then f j else j)

/-- Source `job.status = st` on the record with the given id. -/
def setStatus (s : AppState) (jobId : ℕ) (st : Status) : AppState :=
  { s with activeJobs := updJob jobId (fun j => { j with status := st }) s.activeJobs }

/-- Source `Map.set` on `ffmpegProcesses` (keys are not duplicated). -/
def procInsert (jobId : ℕ) (l : List ℕ) : List ℕ :=
  if jobId ∈ l then l else jobId :: l

/-- Source `Map.delete` on `ffmpegProcesses`. -/
def procDelete (jobId : ℕ) (l : List ℕ) : List ℕ :=
  l.filter (fun i => i ≠ jobId)

/-- Source `AppService.userTooManyCachedItems`.  Despite its name the source
function returns `true` when the device is still allowed to start a job.
`none` models the `TypeError` thrown when the queue holds an id with no
record (the cap-zero short circuit returns before that dereference). -/
def userTooManyCachedItems (cfg : Config) (s : AppState) (jobId : ℕ) : Option Bool :=
  if cfg.maxCachedPerUser = 0 then some false
  else
    match findJob s jobId with
    | none => none
    | some theNewJob =>
      let completedUserJobs := s.activeJobs.filter
        (fun j => (j.status = Status.completed ∨ j.status = Status.optimizing) ∧
          j.deviceId = theNewJob.deviceId)
      if cfg.maxCachedPerUser ≤ completedUserJobs.length then some false else some true

/-- Source `AppService.getActiveJobDeviceIds`: distinct device ids of the jobs
whose status is `queued` (`[...new Set(...)]`). -/
def getActiveJobDeviceIds (s : AppState) : List ℕ :=
  ((s.activeJobs.filter (fun j => j.status = Status.queued)).map (fun j => j.deviceId)).dedup

/-- Source `AppService.isDeviceIdInOptimizeHistory`: membership of the job's device
id among the distinct device ids of `optimizationHistory`. -/
def isDeviceIdInOptimizeHistory (s : AppState) (job : Job) : Bool :=
  ((s.optimizationHistory.map (fun j => j.deviceId)).dedup).contains job.deviceId

/-- The `while (amount <= history.length && history.length > 0) history.shift()`
loop of `AppService.handleOptimizationHistory`. -/
def trimHistory (amount : ℕ) : List Job → List Job
  | [] => []
  | h :: t => if amount ≤ t.length + 1 then trimHistory amount t else h :: t

/-- Source `AppService.handleOptimizationHistory`: push the started job, then shift
oldest entries while the list length is at least the number of distinct
queued device ids. -/
def handleOptimizationHistory (s : AppState) (job : Job) : AppState :=
  { s with optimizationHistory :=
      trimHistory (getActiveJobDeviceIds s).length (s.optimizationHistory ++ [job]) }

/-- Source `AppService.startJob`: mark the record `optimizing`, update the fairness
history with the (mutated) record, and hand the job to the supervisor.  The
worker process registration (`ffmpegProcesses.set`, done inside
`startFFmpegProcess` after the duration probe) is modelled as part of the
start. -/
def startJob (s : AppState) (jobId : ℕ) : AppState :=
  match findJob s jobId with
  | none => s
  | some job =>
    let job' := { job with status := Status.optimizing }
    let s1 := setStatus s jobId Status.optimizing
    let s2 := handleOptimizationHistory s1 job'
    { s2 with ffmpegProcesses := procInsert jobId s2.ffmpegProcesses }

/-- The `for (const index in this.jobQueue)` loop of `AppService.checkQueue`.
`running` is the local `runningJobs` counter, `i` the current index key.
Splicing the started job shifts later entries one index down, so the entry
following a started job is skipped in the same pass, exactly as the source's
`for...in` with `splice` does.  A queue id with no backing record makes the
source throw a `TypeError` (either inside `userTooManyCachedItems` or at the
`nextJob.status` assignment), aborting the pass: modelled by returning the
state reached so far. -/
def checkQueueGo (cfg : Config) (s : AppState) (running i fuel : ℕ) : AppState :=
  match fuel with
  | 0 => s
  | fuel + 1 =>
    if i < s.jobQueue.length then
      if cfg.maxConcurrentJobs ≤ running then s
      else
        let nextJobId := s.jobQueue.getD i 0
        match findJob s nextJobId with
        | none => s
        | some nextJob =>
          match userTooManyCachedItems cfg s nextJobId with
          | none => s
          | some false =>
            checkQueueGo cfg (setStatus s nextJobId Status.pendingDownloadsLimit)
              running (i + 1) fuel
          | some true =>
            if isDeviceIdInOptimizeHistory s nextJob then
              checkQueueGo cfg s running (i + 1) fuel
            else
              let s1 := startJob s nextJobId
              checkQueueGo cfg { s1 with jobQueue := s1.jobQueue.eraseIdx i }
                (running + 1) (i + 1) fuel
    else s

/-- Source `AppService.checkQueue` (one admission pass). -/
def checkQueue (cfg : Config) (s : AppState) : AppState :=
  checkQueueGo cfg s (countOptimizing s.activeJobs) 0 s.jobQueue.length

/-- Source `AppService.completeJob`: mark `ready-for-removal` and refresh the
timestamp; a missing id only logs a warning. -/
def completeJob (s : AppState) (jobId : ℕ) : AppState :=
  match findJob s jobId with
  | none => s
  | some _ =>
    let f : Job → Job := fun j =>
      { j with status := Status.readyForRemoval, timestamp := s.now }
    { s with activeJobs := updJob jobId f s.activeJobs }

/-- The requeue loop at the end of `finalizeJobRemoval`: every job of the
same device sitting in `'pending downloads limit'` goes back to `'queued'`. -/
def requeuePending (jobs : List Job) (deviceId : ℕ) : List Job :=
  jobs.map (fun j =>
    if j.deviceId = deviceId ∧ j.status = Status.pendingDownloadsLimit then
      { j with status := Status.queued }
    else j)

/-- The `finalizeJobRemoval` closure inside `AppService.cancelJob`.
`jobOpt` is the captured `job` lookup.  When the lookup failed and
`activeJobs` is non-empty, the requeue filter dereferences
`job.deviceId` on `undefined` and throws (`none`); with an empty job list
the filter callback never runs and the pass completes. -/
def finalizeJobRemoval (cfg : Config) (jobOpt : Option Job) (jobId : ℕ)
    (t : AppState) : Option AppState :=
  match jobOpt with
  | some job =>
    let t1 := { t with jobQueue := t.jobQueue.filter (fun i => i ≠ jobId) }
    let t2 :=
      if cfg.immediateRemoval = true ∨ job.progress < 100 then
        { t1 with activeJobs := t1.activeJobs.filter (fun j => j.id ≠ jobId) }
      else t1
    some (checkQueue cfg { t2 with activeJobs := requeuePending t2.activeJobs job.deviceId })
  | none =>
    if t.activeJobs.isEmpty then some (checkQueue cfg t) else none

/-- Result of `AppService.cancelJob`: the source returns `true` on both of
its exits, or escapes with a thrown `TypeError`. -/
inductive CancelResult
  | ok (result : Bool)
  | threw
deriving DecidableEq

/-- Source `AppService.cancelJob`.  It first calls `completeJob`, then looks the job
up.  With a registered process the tree-kill callback later runs
`finalizeJobRemoval`; an exception inside that callback is an unhandled
promise rejection that the caller never sees, so that branch still returns
`true`.  Without a process `finalizeJobRemoval` runs on the caller's stack
and its `TypeError` propagates (`CancelResult.threw`). -/
def cancelJob (cfg : Config) (s : AppState) (jobId : ℕ) : CancelResult × AppState :=
  let s1 := completeJob s jobId
  let jobOpt := findJob s1 jobId
  if jobId ∈ s1.ffmpegProcesses then
    let s2 := { s1 with ffmpegProcesses := procDelete jobId s1.ffmpegProcesses }
    match finalizeJobRemoval cfg jobOpt jobId s2 with
    | some s3 => (CancelResult.ok true, s3)
    | none => (CancelResult.ok true, s2)
  else
    match finalizeJobRemoval cfg jobOpt jobId s1 with
    | some s2 => (CancelResult.ok true, s2)
    | none => (CancelResult.threw, s1)

/-- Source `path.join(CACHE_DIR, file)` for the names this model builds. -/
def pathJoin (dir file : String) : String := dir ++ "/" ++ file

/-- The output path `combined_<id>.mp4` assigned at job creation. -/
def mkOutputPath (jobId : ℕ) : String :=
  pathJoin "cache" ("combined_" ++ toString jobId ++ ".mp4")

/-- Source `AppService.downloadAndCombine` (job submission): create the `queued`
record, append to the work queue, run an admission pass, return the id. -/
def downloadAndCombine (cfg : Config) (s : AppState) (url : String)
    (deviceId itemId : ℕ) : ℕ × AppState :=
  let jobId := s.nextId
  let job : Job :=
    { id := jobId, status := Status.queued, progress := 0,
      outputPath := mkOutputPath jobId, inputUrl := url,
      deviceId := deviceId, itemId := itemId, timestamp := s.now,
      size := 0, speed := none }
  let s1 := { s with
    activeJobs := s.activeJobs ++ [job],
    jobQueue := s.jobQueue ++ [jobId],
    nextId := s.nextId + 1 }
  (jobId, checkQueue cfg s1)

/-- Source `AppService.manuallyStartJob`: start a `queued` job directly, bypassing
every admission check; `false` when missing or not `queued`. -/
def manuallyStartJob (s : AppState) (jobId : ℕ) : Bool × AppState :=
  match findJob s jobId with
  | none => (false, s)
  | some job =>
    if job.status = Status.queued then (true, startJob s jobId) else (false, s)

/-- The `'close'` listener of `startFFmpegProcess`: drop the process handle,
then on exit code `0` mark the job `completed` with `progress = 100` and the
`fs.stat` size (`statSize = none` models a failed stat, which only logs and
leaves `size` alone); on a non-zero code mark it `failed` with
`progress = 0`. -/
def closeHandler (s : AppState) (jobId : ℕ) (code : ℤ) (statSize : Option ℕ) : AppState :=
  let s1 := { s with ffmpegProcesses := procDelete jobId s.ffmpegProcesses }
  match findJob s1 jobId with
  | none => s1
  | some _ =>
    if code = 0 then
      let f : Job → Job := fun j =>
        { j with status := Status.completed, progress := 100, size := statSize.getD j.size }
      { s1 with activeJobs := updJob jobId f s1.activeJobs }
    else
      let f : Job → Job := fun j => { j with status := Status.failed, progress := 0 }
      { s1 with activeJobs := updJob jobId f s1.activeJobs }

/-- The `'error'` listener of `startFFmpegProcess`: the source body is a
single log statement (its `reject(error)` is commented out), so the shared
state is untouched and nothing is thrown. -/
def errorHandler (s : AppState) (jobId : ℕ) : AppState :=
  let _ := jobId
  s

/-- Whether the promise returned by `startFFmpegProcess` settles on this
close event: `resolve()` runs when the record is gone or the exit code is
`0`; on a non-zero code the `reject` is commented out, so the promise stays
pending and the `.finally(() => checkQueue())` never fires. -/
def closeSettles (s : AppState) (jobId : ℕ) (code : ℤ) : Bool :=
  (findJob s jobId).isNone ∨ code = 0

/-- External events driving the scheduler: a submission, a worker-process
exit (with the exit code and the `fs.stat` result for the output file), a
worker-process `error` event, a cancellation request, and a manual start. -/
inductive Event
  | submit (url : String) (deviceId itemId : ℕ)
  | processExit (jobId : ℕ) (code : ℤ) (statSize : Option ℕ)
  | procError (jobId : ℕ)
  | cancel (jobId : ℕ)
  | manualStart (jobId : ℕ)
deriving DecidableEq

/-- One scheduler event processed to completion.  `processExit` events are
only delivered for a registered worker process; the follow-up admission pass
runs exactly when the supervisor promise settles (see `closeSettles`). -/
def step (cfg : Config) (s : AppState) : Event → AppState
  | Event.submit url d i => (downloadAndCombine cfg s url d i).2
  | Event.processExit jobId code statSize =>
    if jobId ∈ s.ffmpegProcesses then
      let s1 := closeHandler s jobId code statSize
      if closeSettles s1 jobId code then checkQueue cfg s1 else s1
    else s
  | Event.procError jobId => errorHandler s jobId
  | Event.cancel jobId => (cancelJob cfg s jobId).2
  | Event.manualStart jobId => (manuallyStartJob s jobId).2

/-- The empty in-memory store the service boots with. -/
def initState : AppState :=
  { activeJobs := [], optimizationHistory := [], ffmpegProcesses := [],
    jobQueue := [], nextId := 0, now := 0 }

/-- A whole run: fold the events over the initial state. -/
def run (cfg : Config) (s : AppState) (events : List Event) : AppState :=
  events.foldl (step cfg) s

/-- Seconds from the regex groups of the elapsed-time marker
`time=HH:MM:SS.xx` in `AppService.updateProgress` (the hundredths are
matched but discarded by the source). -/
def parseTimeSeconds (hours minutes seconds : ℕ) : ℕ :=
  hours * 3600 + minutes * 60 + seconds

/-- The progress computation of `AppService.updateProgress` for one
elapsed-time marker: with a known, truthy (non-zero) total duration the job
progress becomes `max (min (t / T * 100) 99.9) 0`; otherwise the update is
skipped and the previous value kept. -/
def updateProgress (totalDuration : Option ℚ) (hours minutes seconds : ℕ)
    (previous : ℚ) : ℚ :=
  match totalDuration with
  | none => previous
  | some t =>
    if t = 0 then previous
    else
      max (min ((parseTimeSeconds hours minutes seconds : ℚ) / t * 100) (999 / 10)) 0

/-- Source `AppService.getTranscodedFilePath`: the output path, only for a
`completed` job. -/
def getTranscodedFilePath (jobs : List Job) (jobId : ℕ) : Option String :=
  match jobs.find? (fun j => j.id = jobId) with
  | none => none
  | some job => if job.status = Status.completed then some job.outputPath else none

/-- The `{ isValid, checksum }` object returned by the integrity check. -/
structure IntegrityResult where
  isValid : Bool
  checksum : String
deriving DecidableEq

/-- A resolved byte range (the source's `{ start, end, total }`; `end` is a
Lean keyword, so the upper bound is called `stop`). -/
structure ByteRange where
  start : ℕ
  stop : ℕ
  total : ℕ
deriving DecidableEq

/-- Modelled from the spec: `AppService.parseRangeHeader` is not under
`src/` (only its caller is).  Per the spec it honors `bytes=start-` and
`bytes=start-end` forms and an absent or unparseable header serves the whole
file; the header argument is the already-parsed pair of bounds, `none`
standing for absent/unparseable. -/
def parseRangeHeader (header : Option (ℕ × Option ℕ)) (size : ℕ) : Option ByteRange :=
  match header with
  | none => none
  | some (first, lastOpt) =>
    let last := match lastOpt with
      | some e => min e (size - 1)
      | none => size - 1
    if first < size then some { start := first, stop := last, total := size } else none

/-- Modelled from the spec: `AppService.validateFileIntegrity` is not under
`src/` (only its caller is).  Per the spec it computes a SHA-256 digest of
the full file together with its current size; `digest` abstracts the hash
function, `contents = none` models a failed read/hash, and the size check
compares the bytes actually read against the stat size. -/
def validateFileIntegrity (digest : List ℕ → String) (contents : Option (List ℕ))
    (expectedSize : ℕ) : Option IntegrityResult :=
  match contents with
  | none => none
  | some bytes => some { isValid := bytes.length = expectedSize, checksum := digest bytes }

/-- The failure exits of `AppController.downloadTranscodedFile`. -/
inductive DownloadError
  | notFound
  | statFailed
  | integrityUnavailable
  | integrityCheckFailed
deriving DecidableEq

/-- The response assembled by `AppController.downloadTranscodedFile`:
status code, `X-File-Checksum` and `X-File-Size` headers, the
`Content-Range` header for partial responses, `Content-Length`, and the
inclusive byte interval actually streamed from the file. -/
structure DownloadResponse where
  httpStatus : ℕ
  checksumHeader : String
  sizeHeader : ℕ
  contentRange : Option ByteRange
  contentLength : ℕ
  servedFrom : ℕ
  servedTo : ℕ
deriving DecidableEq

/-- Source `AppController.downloadTranscodedFile`: resolve the completed job's
path, stat it (`statSize = none` models a thrown `statSync`), parse the
range header, validate integrity before creating any read stream, and only
then build the 206/200 response carrying the checksum and size headers. -/
def downloadTranscodedFile (jobs : List Job) (jobId : ℕ) (statSize : Option ℕ)
    (digest : List ℕ → String) (contents : Option (List ℕ))
    (rangeHeader : Option (ℕ × Option ℕ)) : Except DownloadError DownloadResponse :=
  match getTranscodedFilePath jobs jobId with
  | none => Except.error DownloadError.notFound
  | some _ =>
    match statSize with
    | none => Except.error DownloadError.statFailed
    | some size =>
      let range := parseRangeHeader rangeHeader size
      match validateFileIntegrity digest contents size with
      | none => Except.error DownloadError.integrityUnavailable
      | some r =>
        if r.isValid = false then Except.error DownloadError.integrityCheckFailed
        else
          match range with
          | some rg =>
            Except.ok
              { httpStatus := 206, checksumHeader := r.checksum, sizeHeader := size,
                contentRange := some rg, contentLength := rg.stop - rg.start + 1,
                servedFrom := rg.start, servedTo := rg.stop }
          | none =>
            Except.ok
              { httpStatus := 200, checksumHeader := r.checksum, sizeHeader := size,
                contentRange := none, contentLength := size,
                servedFrom := 0, servedTo := size - 1 }

/-- Source `CleanupService.isOlderThanDelay`: `now - timestampMs > removalDelayMs`. -/
def isOlderThanDelay (timestampMs now removalDelayMs : ℕ) : Bool :=
  removalDelayMs < now - timestampMs

/-- The orphan filter of `CleanupService.handleCleanup`: cache files whose
joined path fails the `outputPaths.has(filePath)` membership test, i.e. is
not the `outputPath` of any job record. -/
def orphanFiles (jobs : List Job) (cacheDir : String) (files : List String) : List String :=
  files.filter (fun file =>
    ¬ pathJoin cacheDir file ∈ jobs.map (fun j => j.outputPath))

/-- The expired-job sweep of `CleanupService.handleCleanup`: the service
selects `ready-for-removal` jobs older than the retention delay, and
`FileRemoval.cleanupReadyForRemovalJobs` filters on the status once more
before deleting each `outputPath`. -/
def expiredJobFiles (jobs : List Job) (now removalDelayMs : ℕ) : List String :=
  (((jobs.filter (fun j =>
      isOlderThanDelay j.timestamp now removalDelayMs = true ∧
        j.status = Status.readyForRemoval)).filter
    (fun j => j.status = Status.readyForRemoval)).map (fun j => j.outputPath))

/-- Source `CleanupService.handleCleanup`, as the list of file paths whose deletion
the sweep requests.  With no known `outputPath` at all the sweep logs and
returns without touching the cache directory. -/
def handleCleanup (jobs : List Job) (cacheDir : String) (files : List String)
    (now removalDelayMs : ℕ) : List String :=
  let outputPaths := (jobs.map (fun j => j.outputPath)).dedup
  if outputPaths.length = 0 then []
  else
    (orphanFiles jobs cacheDir files).map (pathJoin cacheDir) ++
      expiredJobFiles jobs now removalDelayMs

/-- Outcome of the deletability probe in `FileRemoval.removeFile`:
the `r+` open succeeded, failed (busy/locked), or the 5000 ms race timed
out first. -/
inductive ProbeOutcome
  | deletable
  | busy
  | timeout
deriving DecidableEq

/-- Outcome of the `fs.unlink` call. -/
inductive UnlinkOutcome
  | ok
  | ebusy
  | otherError
deriving DecidableEq

/-- The filesystem's behaviour at one retry iteration: whether the file
still exists, how the deletability probe resolves, and how `unlink` goes. -/
structure AttemptEnv where
  present : Bool
  probe : ProbeOutcome
  unlink : UnlinkOutcome
deriving DecidableEq

/-- How `FileRemoval.removeFile` returns (it always returns normally). -/
inductive RemoveOutcome
  | noFile
  | removed
  | gaveUp
deriving DecidableEq

/-- Observable trace of one `removeFile` call: its outcome, how many times
`fs.unlink` was invoked, and how many 5000 ms backoff waits were taken. -/
structure RemoveTrace where
  outcome : RemoveOutcome
  unlinkCalls : ℕ
  backoffs : ℕ
deriving DecidableEq

/-- The `while (retries > 0)` loop of `FileRemoval.removeFile`.  Each
iteration: a missing file returns immediately; a probe that fails or times
out throws the busy error (whose message contains `timed out`, so it is
retryable); `unlink` may succeed, fail with `EBUSY` (retryable) or fail
otherwise (final).  The catch block decrements `retries` and either waits
the 5000 ms backoff and retries, or logs and breaks. -/
def removeFileGo (envs : ℕ → AttemptEnv) : ℕ → ℕ → ℕ → ℕ → RemoveTrace
  | 0, _, unlinks, backs => { outcome := RemoveOutcome.gaveUp, unlinkCalls := unlinks, backoffs := backs }
  | retries + 1, k, unlinks, backs =>
    let env := envs k
    if env.present = false then
      { outcome := RemoveOutcome.noFile, unlinkCalls := unlinks, backoffs := backs }
    else if env.probe ≠ ProbeOutcome.deletable then
      if 0 < retries then removeFileGo envs retries (k + 1) unlinks (backs + 1)
      else { outcome := RemoveOutcome.gaveUp, unlinkCalls := unlinks, backoffs := backs }
    else
      match env.unlink with
      | UnlinkOutcome.ok =>
        { outcome := RemoveOutcome.removed, unlinkCalls := unlinks + 1, backoffs := backs }
      | UnlinkOutcome.ebusy =>
        if 0 < retries then removeFileGo envs retries (k + 1) (unlinks + 1) (backs + 1)
        else { outcome := RemoveOutcome.gaveUp, unlinkCalls := unlinks + 1, backoffs := backs }
      | UnlinkOutcome.otherError =>
        { outcome := RemoveOutcome.gaveUp, unlinkCalls := unlinks + 1, backoffs := backs }

/-- Source `FileRemoval.removeFile` with its retry budget of 3. -/
def removeFile (envs : ℕ → AttemptEnv) : RemoveTrace :=
  removeFileGo envs 3 0 0 0

/-! ### Derived predicates used by the verification -/

/-- The job ids currently in the table. -/
def idsOf (s : AppState) : List ℕ := s.activeJobs.map Job.id

/-- The id invariant of reachable states: ids are pairwise distinct and
below the fresh-id counter. -/
def WellFormed (s : AppState) : Prop :=
  (idsOf s).Nodup ∧ ∀ n ∈ idsOf s, n < s.nextId

/-- The invariant behind the concurrency-cap claim: ids are well-formed and
at most `maxConcurrentJobs` jobs are `optimizing`. -/
def Inv (cfg : Config) (s : AppState) : Prop :=
  WellFormed s ∧ countOptimizing s.activeJobs ≤ cfg.maxConcurrentJobs

/-- Recognizer for the one event kind that bypasses admission control. -/
def isManualStart : Event → Bool
  | Event.manualStart _ => true
  | _ => false

/-- Every record of id `i` in `l'` either kept the status it had on a record
of id `i` in `l`, or carries one of the statuses in `S`. -/
def OutcomesFor (i : ℕ) (S : List Status) (l l' : List Job) : Prop :=
  ∀ j' ∈ l', j'.id = i → (∃ j ∈ l, j.id = i ∧ j'.status = j.status) ∨ j'.status ∈ S

/-- Every record of `l'` comes from a same-id record of `l`, with its status
either kept or moved to `'pending downloads limit'`. -/
def PendingOnly (l l' : List Job) : Prop :=
  ∀ j' ∈ l', ∃ j ∈ l, j.id = j'.id ∧
    (j'.status = j.status ∨ j'.status = Status.pendingDownloadsLimit)

/-! ### Concrete configurations, states and traces used as test data -/

def cfgOne : Config :=
  { maxConcurrentJobs := 1, maxCachedPerUser := 10, immediateRemoval := true }

def cfgWide : Config :=
  { maxConcurrentJobs := 3, maxCachedPerUser := 1, immediateRemoval := true }

def cfgZero : Config :=
  { maxConcurrentJobs := 1, maxCachedPerUser := 0, immediateRemoval := true }

def twoSubmits : List Event :=
  [Event.submit "u" 1 0, Event.submit "u" 2 0]

def burstWithManualStart : List Event :=
  [Event.submit "u" 1 0, Event.submit "u" 2 0, Event.manualStart 1]

/-- Device 1 submits twice under a per-device cache cap of 1 (the second job
parks in `'pending downloads limit'`), then the first job's worker exits with
a non-zero code. -/
def pendingTrace : List Event :=
  [Event.submit "u" 1 0, Event.submit "u" 1 1, Event.processExit 0 1 none]

def jobQueuedDev2 : Job :=
  { id := 5, status := Status.queued, progress := 0, outputPath := mkOutputPath 5,
    inputUrl := "u", deviceId := 2, itemId := 0, timestamp := 0, size := 0, speed := none }

def stateOneQueued : AppState :=
  { activeJobs := [jobQueuedDev2], optimizationHistory := [], ffmpegProcesses := [],
    jobQueue := [5], nextId := 6, now := 0 }

def jobStartedDev1 : Job :=
  { id := 9, status := Status.optimizing, progress := 0, outputPath := mkOutputPath 9,
    inputUrl := "u", deviceId := 1, itemId := 0, timestamp := 0, size := 0, speed := none }

def jobOptim : Job :=
  { id := 0, status := Status.optimizing, progress := 1 / 2, outputPath := mkOutputPath 0,
    inputUrl := "u", deviceId := 1, itemId := 0, timestamp := 0, size := 0, speed := none }

def stateOptim : AppState :=
  { activeJobs := [jobOptim], optimizationHistory := [], ffmpegProcesses := [0],
    jobQueue := [], nextId := 1, now := 0 }

def jobDone : Job :=
  { jobOptim with status := Status.completed, progress := 100, size := 7 }

/-- The record job 1 holds right after the admission pass triggered by a
fourth submission starts it directly out of `'pending downloads limit'`. -/
def job1AfterStart : Job :=
  { id := 1, status := Status.optimizing, progress := 0, outputPath := mkOutputPath 1,
    inputUrl := "u", deviceId := 1, itemId := 1, timestamp := 0, size := 0, speed := none }

def jobCompleted3 : Job :=
  { id := 3, status := Status.completed, progress := 100, outputPath := mkOutputPath 3,
    inputUrl := "u", deviceId := 1, itemId := 0, timestamp := 0, size := 4, speed := none }

def respSample : DownloadResponse :=
  { httpStatus := 200, checksumHeader := "d", sizeHeader := 4, contentRange := none,
    contentLength := 4, servedFrom := 0, servedTo := 3 }

def envAllTimeout : ℕ → AttemptEnv := fun _ =>
  { present := true, probe := ProbeOutcome.timeout, unlink := UnlinkOutcome.ok }

/-- The rotation trim as the spec words it, for comparison with the source's
`handleOptimizationHistory`: drop oldest entries until the length is at most
`amount`. -/
def trimHistoryPerSpec (amount : ℕ) (l : List Job) : List Job :=
  l.drop (l.length - amount)

/-- The spec's description of the rotation-list update: append the started
job's entry, then trim from the oldest end until the length is less than or
equal to the number of distinct queued devices. -/
def handleOptimizationHistoryPerSpec (s : AppState) (job : Job) : List Job :=
  trimHistoryPerSpec (getActiveJobDeviceIds s).length (s.optimizationHistory ++ [job])

/-! ### Basic counting and update lemmas -/


lemma countP_map_le {α : Type} (p : α → Bool) (g : α → α)
    (h : ∀ a, p (g a) = true → p a = true) :
    ∀ l : List α, (l.map g).countP p ≤ l.countP p := by
  intro l
  induction l with
  | nil => simp
  | cons a t ih =>
    simp only [List.map_cons, List.countP_cons]
    split_ifs with h1 h2 h2
    · omega
    · exact absurd (h a h1) h2
    · omega
    · omega

lemma updJob_map_id (jobId : ℕ) (f : Job → Job) (hf : ∀ j, (f j).id = j.id)
    (l : List Job) : (updJob jobId f l).map Job.id = l.map Job.id := by
  unfold updJob
  rw [List.map_map]
  apply List.map_congr_left
  intro j _
  by_cases h : j.id = jobId <;> simp [h, hf]

lemma updJob_eq_of_forall_ne (jobId : ℕ) (f : Job → Job) (l : List Job)
    (h : ∀ j ∈ l, ¬ j.id = jobId) : updJob jobId f l = l := by
  unfold updJob
  conv_rhs => rw [← List.map_id l]
  apply List.map_congr_left
  intro j hj
  simp [h j hj]

lemma countOptimizing_updJob_le (jobId : ℕ) (f : Job → Job)
    (hf : ∀ j, ¬ (f j).status = Status.optimizing) (l : List Job) :
    countOptimizing (updJob jobId f l) ≤ countOptimizing l := by
  unfold countOptimizing updJob
  apply countP_map_le
  intro a hpa
  by_cases h : a.id = jobId
  · simp only [h, if_true] at hpa
    exact absurd (of_decide_eq_true hpa) (hf a)
  · simpa [h] using hpa

lemma countOptimizing_updJob_le_succ (jobId : ℕ) (f : Job → Job)
    (l : List Job) (hnd : (l.map Job.id).Nodup) :
    countOptimizing (updJob jobId f l) ≤ countOptimizing l + 1 := by
  induction l with
  | nil => simp [updJob, countOptimizing]
  | cons a t ih =>
    simp only [List.map_cons, List.nodup_cons] at hnd
    obtain ⟨ha, ht⟩ := hnd
    by_cases h : a.id = jobId
    · have htail : updJob jobId f t = t := by
        apply updJob_eq_of_forall_ne
        intro j hj hje
        exact ha (by rw [← h] at hje; rw [← hje]; exact List.mem_map_of_mem Job.id hj)
      unfold updJob at htail ⊢
      simp only [List.map_cons, h, if_true, htail]
      unfold countOptimizing
      simp only [List.countP_cons]
      split <;> split <;> omega
    · unfold updJob at ih ⊢
      simp only [List.map_cons, h, if_false]
      unfold countOptimizing at ih ⊢
      simp only [List.countP_cons]
      have := ih ht
      split <;> omega

lemma countOptimizing_filter_le (l : List Job) (q : Job → Bool) :
    countOptimizing (l.filter q) ≤ countOptimizing l :=
  List.Sublist.countP_le _ (List.filter_sublist l)

/-! ### Field preservation for the scheduler operations -/

lemma idsOf_setStatus (s : AppState) (jobId : ℕ) (st : Status) :
    idsOf (setStatus s jobId st) = idsOf s := by
  unfold idsOf setStatus
  exact updJob_map_id jobId (fun j => { j with status := st }) (fun _ => rfl) s.activeJobs

lemma countOptimizing_setStatus_le (s : AppState) (jobId : ℕ) (st : Status)
    (hst : ¬ st = Status.optimizing) :
    countOptimizing (setStatus s jobId st).activeJobs ≤ countOptimizing s.activeJobs :=
  countOptimizing_updJob_le jobId _ (fun _ => hst) s.activeJobs

lemma startJob_jobQueue (s : AppState) (jobId : ℕ) :
    (startJob s jobId).jobQueue = s.jobQueue := by
  unfold startJob
  cases findJob s jobId <;> rfl

lemma startJob_nextId (s : AppState) (jobId : ℕ) :
    (startJob s jobId).nextId = s.nextId := by
  unfold startJob
  cases findJob s jobId <;> rfl

lemma startJob_now (s : AppState) (jobId : ℕ) :
    (startJob s jobId).now = s.now := by
  unfold startJob
  cases findJob s jobId <;> rfl

lemma idsOf_startJob (s : AppState) (jobId : ℕ) :
    idsOf (startJob s jobId) = idsOf s := by
  rcases hfind : findJob s jobId with _ | job
  · simp [startJob, hfind]
  · simp only [startJob, hfind]
    unfold idsOf
    exact updJob_map_id jobId (fun j => { j with status := Status.optimizing })
      (fun _ => rfl) s.activeJobs

lemma countOptimizing_startJob_le (s : AppState) (jobId : ℕ)
    (hnd : (idsOf s).Nodup) :
    countOptimizing (startJob s jobId).activeJobs ≤ countOptimizing s.activeJobs + 1 := by
  rcases hfind : findJob s jobId with _ | job
  · simp [startJob, hfind]
  · simp only [startJob, hfind]
    exact countOptimizing_updJob_le_succ jobId (fun j => { j with status := Status.optimizing })
      s.activeJobs hnd

lemma completeJob_jobQueue (s : AppState) (jobId : ℕ) :
    (completeJob s jobId).jobQueue = s.jobQueue := by
  unfold completeJob
  cases findJob s jobId <;> rfl

lemma completeJob_nextId (s : AppState) (jobId : ℕ) :
    (completeJob s jobId).nextId = s.nextId := by
  unfold completeJob
  cases findJob s jobId <;> rfl

lemma completeJob_ffmpeg (s : AppState) (jobId : ℕ) :
    (completeJob s jobId).ffmpegProcesses = s.ffmpegProcesses := by
  unfold completeJob
  cases findJob s jobId <;> rfl

lemma idsOf_completeJob (s : AppState) (jobId : ℕ) :
    idsOf (completeJob s jobId) = idsOf s := by
  rcases hfind : findJob s jobId with _ | job
  · simp [completeJob, hfind]
  · simp only [completeJob, hfind]
    unfold idsOf
    exact updJob_map_id jobId
      (fun j => { j with status := Status.readyForRemoval, timestamp := s.now })
      (fun _ => rfl) s.activeJobs

lemma countOptimizing_completeJob_le (s : AppState) (jobId : ℕ) :
    countOptimizing (completeJob s jobId).activeJobs ≤ countOptimizing s.activeJobs := by
  rcases hfind : findJob s jobId with _ | job
  · simp [completeJob, hfind]
  · simp only [completeJob, hfind]
    exact countOptimizing_updJob_le jobId
      (fun j => { j with status := Status.readyForRemoval, timestamp := s.now })
      (fun _ h => Status.noConfusion h) s.activeJobs

lemma requeuePending_map_id (jobs : List Job) (deviceId : ℕ) :
    (requeuePending jobs deviceId).map Job.id = jobs.map Job.id := by
  unfold requeuePending
  rw [List.map_map]
  apply List.map_congr_left
  intro j _
  simp only [Function.comp_apply]
  split <;> rfl

lemma countOptimizing_requeuePending_le (jobs : List Job) (deviceId : ℕ) :
    countOptimizing (requeuePending jobs deviceId) ≤ countOptimizing jobs := by
  unfold countOptimizing requeuePending
  apply countP_map_le
  intro a h
  split at h
  · simp at h
  · exact h

lemma setStatus_nextId (s : AppState) (jobId : ℕ) (st : Status) :
    (setStatus s jobId st).nextId = s.nextId := rfl

lemma setStatus_now (s : AppState) (jobId : ℕ) (st : Status) :
    (setStatus s jobId st).now = s.now := rfl

/-! ### The admission pass: preservation lemmas -/

lemma checkQueueGo_preserved (cfg : Config) :
    ∀ fuel s running i,
      idsOf (checkQueueGo cfg s running i fuel) = idsOf s ∧
      (checkQueueGo cfg s running i fuel).nextId = s.nextId ∧
      (checkQueueGo cfg s running i fuel).now = s.now := by
  intro fuel
  induction fuel with
  | zero => intro s running i; exact ⟨rfl, rfl, rfl⟩
  | succ fuel ih =>
    intro s running i
    simp only [checkQueueGo]
    split_ifs with hlen hrun
    · exact ⟨rfl, rfl, rfl⟩
    · rcases hfind : findJob s (s.jobQueue.getD i 0) with _ | nextJob
      · simp [hfind]
      · simp only [hfind]
        rcases huser : userTooManyCachedItems cfg s (s.jobQueue.getD i 0) with _ | b
        · simp [huser]
        · cases b
          · simp only [huser]
            refine ⟨?_, ?_, ?_⟩
            · rw [(ih _ running (i + 1)).1]
              exact idsOf_setStatus s _ _
            · rw [(ih _ running (i + 1)).2.1]
              exact setStatus_nextId s _ _
            · rw [(ih _ running (i + 1)).2.2]
              exact setStatus_now s _ _
          · simp only [huser]
            cases hdev : isDeviceIdInOptimizeHistory s nextJob
            · simp only [hdev, Bool.false_eq_true, if_false]
              refine ⟨?_, ?_, ?_⟩
              · rw [(ih _ (running + 1) (i + 1)).1]
                exact idsOf_startJob s _
              · rw [(ih _ (running + 1) (i + 1)).2.1]
                exact startJob_nextId s _
              · rw [(ih _ (running + 1) (i + 1)).2.2]
                exact startJob_now s _
            · simp only [hdev, if_true]
              exact ih s running (i + 1)
    · exact ⟨rfl, rfl, rfl⟩

lemma checkQueueGo_count_le (cfg : Config) :
    ∀ fuel s running i,
      (idsOf s).Nodup →
      countOptimizing s.activeJobs ≤ running →
      countOptimizing (checkQueueGo cfg s running i fuel).activeJobs ≤
        max running cfg.maxConcurrentJobs := by
  intro fuel
  induction fuel with
  | zero =>
    intro s running i _ hcnt
    exact le_trans hcnt (le_max_left _ _)
  | succ fuel ih =>
    intro s running i hnd hcnt
    simp only [checkQueueGo]
    split_ifs with hlen hrun
    · exact le_trans hcnt (le_max_left _ _)
    · rcases hfind : findJob s (s.jobQueue.getD i 0) with _ | nextJob
      · simp only [hfind]
        exact le_trans hcnt (le_max_left _ _)
      · simp only [hfind]
        rcases huser : userTooManyCachedItems cfg s (s.jobQueue.getD i 0) with _ | b
        · simp only [huser]
          exact le_trans hcnt (le_max_left _ _)
        · cases b
          · simp only [huser]
            apply ih
            · rw [idsOf_setStatus]; exact hnd
            · exact le_trans
                (countOptimizing_setStatus_le s _ _ (fun h => Status.noConfusion h)) hcnt
          · simp only [huser]
            cases hdev : isDeviceIdInOptimizeHistory s nextJob
            · simp only [hdev, Bool.false_eq_true, if_false]
              refine le_trans (ih _ (running + 1) (i + 1) ?_ ?_) ?_
              · show idsOf (startJob s (s.jobQueue.getD i 0)) |>.Nodup
                rw [idsOf_startJob]
                exact hnd
              · show countOptimizing (startJob s (s.jobQueue.getD i 0)).activeJobs ≤
                  running + 1
                exact le_trans (countOptimizing_startJob_le s _ hnd) (by omega)
              · have hr1 : running + 1 ≤ cfg.maxConcurrentJobs := by omega
                rw [max_eq_right hr1]
                exact le_max_right _ _
            · simp only [hdev, if_true]
              exact ih s running (i + 1) hnd hcnt
    · exact le_trans hcnt (le_max_left _ _)

lemma checkQueue_count_le (cfg : Config) (s : AppState) (hnd : (idsOf s).Nodup) :
    countOptimizing (checkQueue cfg s).activeJobs ≤
      max (countOptimizing s.activeJobs) cfg.maxConcurrentJobs :=
  checkQueueGo_count_le cfg s.jobQueue.length s (countOptimizing s.activeJobs) 0 hnd le_rfl

lemma idsOf_checkQueue (cfg : Config) (s : AppState) :
    idsOf (checkQueue cfg s) = idsOf s :=
  (checkQueueGo_preserved cfg s.jobQueue.length s (countOptimizing s.activeJobs) 0).1

lemma checkQueue_nextId (cfg : Config) (s : AppState) :
    (checkQueue cfg s).nextId = s.nextId :=
  (checkQueueGo_preserved cfg s.jobQueue.length s (countOptimizing s.activeJobs) 0).2.1

/-! ### Well-formedness of the job table -/

lemma wellFormed_of_sublist {s t : AppState} (h : WellFormed s)
    (hsub : (idsOf t).Sublist (idsOf s)) (hnext : t.nextId = s.nextId) :
    WellFormed t :=
  ⟨hsub.nodup h.1, fun n hn => hnext ▸ h.2 n (hsub.subset hn)⟩

lemma wellFormed_of_eq {s t : AppState} (h : WellFormed s)
    (hids : idsOf t = idsOf s) (hnext : t.nextId = s.nextId) :
    WellFormed t :=
  wellFormed_of_sublist h (hids ▸ List.Sublist.refl _) hnext

lemma closeHandler_facts (s : AppState) (jobId : ℕ) (code : ℤ) (statSize : Option ℕ) :
    idsOf (closeHandler s jobId code statSize) = idsOf s ∧
    (closeHandler s jobId code statSize).nextId = s.nextId ∧
    countOptimizing (closeHandler s jobId code statSize).activeJobs ≤
      countOptimizing s.activeJobs := by
  unfold closeHandler
  rcases hfind : findJob { s with ffmpegProcesses := procDelete jobId s.ffmpegProcesses }
      jobId with _ | j
  · simp [hfind, idsOf]
  · simp only [hfind]
    split_ifs with hcode
    · refine ⟨?_, rfl, ?_⟩
      · exact updJob_map_id jobId
          (fun j => { j with status := Status.completed, progress := 100, size := statSize.getD j.size })
          (fun _ => rfl) s.activeJobs
      · exact countOptimizing_updJob_le jobId
          (fun j => { j with status := Status.completed, progress := 100, size := statSize.getD j.size })
          (fun _ h => Status.noConfusion h) s.activeJobs
    · refine ⟨?_, rfl, ?_⟩
      · exact updJob_map_id jobId
          (fun j => { j with status := Status.failed, progress := 0 })
          (fun _ => rfl) s.activeJobs
      · exact countOptimizing_updJob_le jobId
          (fun j => { j with status := Status.failed, progress := 0 })
          (fun _ h => Status.noConfusion h) s.activeJobs

lemma finalizeJobRemoval_facts (cfg : Config) (jobOpt : Option Job) (jobId : ℕ)
    (t : AppState) (hnd : (idsOf t).Nodup) (t' : AppState)
    (heq : finalizeJobRemoval cfg jobOpt jobId t = some t') :
    (idsOf t').Sublist (idsOf t) ∧ t'.nextId = t.nextId ∧
      countOptimizing t'.activeJobs ≤
        max (countOptimizing t.activeJobs) cfg.maxConcurrentJobs := by
  unfold finalizeJobRemoval at heq
  rcases jobOpt with _ | job
  · by_cases hemp : t.activeJobs.isEmpty
    · simp only [hemp, if_true, Option.some.injEq] at heq
      subst heq
      refine ⟨?_, checkQueue_nextId cfg t, ?_⟩
      · rw [idsOf_checkQueue]
      · exact checkQueue_count_le cfg t hnd
    · simp [hemp] at heq
  · simp only [Option.some.injEq] at heq
    subst heq
    set t1 := { t with jobQueue := t.jobQueue.filter (fun i => i ≠ jobId) } with ht1
    set t2 := if cfg.immediateRemoval = true ∨ job.progress < 100 then
        { t1 with activeJobs := t1.activeJobs.filter (fun j => j.id ≠ jobId) }
      else t1 with ht2
    set t3 := { t2 with activeJobs := requeuePending t2.activeJobs job.deviceId } with ht3
    have hsub2 : (idsOf t2).Sublist (idsOf t) := by
      rw [ht2]
      split_ifs
      · exact List.Sublist.map Job.id (List.filter_sublist t.activeJobs)
      · exact List.Sublist.refl _
    have hcnt2 : countOptimizing t2.activeJobs ≤ countOptimizing t.activeJobs := by
      rw [ht2]
      split_ifs
      · exact countOptimizing_filter_le t.activeJobs _
      · exact le_refl _
    have hids3 : idsOf t3 = idsOf t2 := requeuePending_map_id t2.activeJobs job.deviceId
    have hnd3 : (idsOf t3).Nodup := (hids3 ▸ hsub2).nodup hnd
    have hnext2 : t2.nextId = t.nextId := by
      rw [ht2]; split_ifs <;> rfl
    refine ⟨?_, ?_, ?_⟩
    · rw [idsOf_checkQueue, hids3]
      exact hsub2
    · rw [checkQueue_nextId]
      exact hnext2
    · refine le_trans (checkQueue_count_le cfg t3 hnd3) ?_
      have : countOptimizing t3.activeJobs ≤ countOptimizing t.activeJobs :=
        le_trans (countOptimizing_requeuePending_le t2.activeJobs job.deviceId) hcnt2
      exact max_le_max this (le_refl _)

/-! ### The scheduling invariant -/

lemma wellFormed_checkQueue (cfg : Config) (s : AppState) (h : WellFormed s) :
    WellFormed (checkQueue cfg s) :=
  wellFormed_of_eq h (idsOf_checkQueue cfg s) (checkQueue_nextId cfg s)

lemma checkQueue_inv (cfg : Config) (s : AppState) (h : Inv cfg s) :
    Inv cfg (checkQueue cfg s) := by
  refine ⟨wellFormed_checkQueue cfg s h.1, ?_⟩
  refine le_trans (checkQueue_count_le cfg s h.1.1) ?_
  exact max_le h.2 (le_refl _)

lemma downloadAndCombine_inv (cfg : Config) (s : AppState) (url : String)
    (deviceId itemId : ℕ) (h : Inv cfg s) :
    Inv cfg (downloadAndCombine cfg s url deviceId itemId).2 := by
  obtain ⟨⟨hnd, hbound⟩, hcnt⟩ := h
  apply checkQueue_inv
  constructor
  · constructor
    · show ((s.activeJobs ++ [_]).map Job.id).Nodup
      rw [List.map_append]
      refine List.nodup_append.mpr ⟨hnd, List.nodup_singleton _, ?_⟩
      intro a ha hb
      simp only [List.map_cons, List.map_nil, List.mem_singleton] at hb
      have := hbound a ha
      omega
    · intro n hn
      show n < s.nextId + 1
      rw [show idsOf _ = (s.activeJobs ++ [_]).map Job.id from rfl, List.map_append] at hn
      rcases List.mem_append.mp hn with hn | hn
      · have := hbound n hn
        omega
      · simp only [List.map_cons, List.map_nil, List.mem_singleton] at hn
        omega
  · show countOptimizing (s.activeJobs ++ [_]) ≤ cfg.maxConcurrentJobs
    unfold countOptimizing at hcnt ⊢
    rw [List.countP_append]
    simpa using hcnt

lemma cancelJob_inv (cfg : Config) (s : AppState) (jobId : ℕ) (h : Inv cfg s) :
    Inv cfg (cancelJob cfg s jobId).2 := by
  obtain ⟨hwf, hcnt⟩ := h
  have hwf1 : WellFormed (completeJob s jobId) :=
    wellFormed_of_eq hwf (idsOf_completeJob s jobId) (completeJob_nextId s jobId)
  have hcnt1 : countOptimizing (completeJob s jobId).activeJobs ≤ cfg.maxConcurrentJobs :=
    le_trans (countOptimizing_completeJob_le s jobId) hcnt
  unfold cancelJob
  by_cases hproc : jobId ∈ (completeJob s jobId).ffmpegProcesses
  · rw [if_pos hproc]
    have hwf2 : WellFormed { completeJob s jobId with
        ffmpegProcesses := procDelete jobId (completeJob s jobId).ffmpegProcesses } :=
      wellFormed_of_eq hwf1 rfl rfl
    rcases hfin : finalizeJobRemoval cfg (findJob (completeJob s jobId) jobId) jobId
        { completeJob s jobId with
          ffmpegProcesses := procDelete jobId (completeJob s jobId).ffmpegProcesses }
      with _ | s3
    · simp only [hfin]
      exact ⟨hwf2, hcnt1⟩
    · simp only [hfin]
      obtain ⟨hsub, hnext, hcnt3⟩ :=
        finalizeJobRemoval_facts cfg _ jobId _ hwf2.1 s3 hfin
      refine ⟨wellFormed_of_sublist hwf2 hsub hnext, ?_⟩
      exact le_trans hcnt3 (max_le hcnt1 (le_refl _))
  · rw [if_neg hproc]
    rcases hfin : finalizeJobRemoval cfg (findJob (completeJob s jobId) jobId) jobId
        (completeJob s jobId) with _ | s2
    · simp only [hfin]
      exact ⟨hwf1, hcnt1⟩
    · simp only [hfin]
      obtain ⟨hsub, hnext, hcnt2⟩ :=
        finalizeJobRemoval_facts cfg _ jobId _ hwf1.1 s2 hfin
      refine ⟨wellFormed_of_sublist hwf1 hsub hnext, ?_⟩
      exact le_trans hcnt2 (max_le hcnt1 (le_refl _))

lemma step_inv (cfg : Config) (s : AppState) (e : Event) (h : Inv cfg s)
    (he : isManualStart e = false) : Inv cfg (step cfg s e) := by
  cases e with
  | submit url deviceId itemId =>
    exact downloadAndCombine_inv cfg s url deviceId itemId h
  | processExit jobId code statSize =>
    show Inv cfg (if jobId ∈ s.ffmpegProcesses then _ else s)
    by_cases hproc : jobId ∈ s.ffmpegProcesses
    · rw [if_pos hproc]
      obtain ⟨hids, hnext, hcnt⟩ := closeHandler_facts s jobId code statSize
      have h1 : Inv cfg (closeHandler s jobId code statSize) :=
        ⟨wellFormed_of_eq h.1 hids hnext, le_trans hcnt h.2⟩
      by_cases hset : closeSettles (closeHandler s jobId code statSize) jobId code = true
      · rw [if_pos hset]
        exact checkQueue_inv cfg _ h1
      · rw [if_neg hset]
        exact h1
    · rw [if_neg hproc]
      exact h
  | procError jobId => exact h
  | cancel jobId => exact cancelJob_inv cfg s jobId h
  | manualStart jobId => exact absurd he (by simp [isManualStart])

lemma run_inv (cfg : Config) :
    ∀ (events : List Event) (s : AppState), Inv cfg s →
      (∀ e ∈ events, isManualStart e = false) → Inv cfg (run cfg s events) := by
  intro events
  induction events with
  | nil => intro s h _; exact h
  | cons e t ih =>
    intro s h he
    have h1 : Inv cfg (step cfg s e) := step_inv cfg s e h (he e (by simp))
    exact ih (step cfg s e) h1 (fun e' he' => he e' (by simp [he']))

lemma initState_inv (cfg : Config) : Inv cfg initState := by
  refine ⟨⟨?_, ?_⟩, ?_⟩
  · exact List.nodup_nil
  · intro n hn
    simp [idsOf, initState] at hn
  · simp [countOptimizing, initState]

/-! ### Which statuses one operation can move a job to -/

lemma outcomesFor_refl (i : ℕ) (S : List Status) (l : List Job) :
    OutcomesFor i S l l :=
  fun j' hj' hid => Or.inl ⟨j', hj', hid, rfl⟩

lemma outcomesFor_of_eq (i : ℕ) (S : List Status) {l l' : List Job} (h : l' = l) :
    OutcomesFor i S l l' := h ▸ outcomesFor_refl i S l

lemma outcomesFor_trans {i : ℕ} {S : List Status} {l1 l2 l3 : List Job}
    (h12 : OutcomesFor i S l1 l2) (h23 : OutcomesFor i S l2 l3) :
    OutcomesFor i S l1 l3 := by
  intro j' hj' hid
  rcases h23 j' hj' hid with ⟨j, hj, hjid, hst⟩ | hst
  · rcases h12 j hj hjid with ⟨j0, hj0, hj0id, hst0⟩ | hst0
    · exact Or.inl ⟨j0, hj0, hj0id, hst.trans hst0⟩
    · exact Or.inr (hst ▸ hst0)
  · exact Or.inr hst

lemma outcomesFor_of_subset (i : ℕ) (S : List Status) {l l' : List Job}
    (h : ∀ j ∈ l', j ∈ l) : OutcomesFor i S l l' :=
  fun j' hj' hid => Or.inl ⟨j', h j' hj', hid, rfl⟩

lemma outcomesFor_map (i : ℕ) (S : List Status) (l : List Job) (g : Job → Job)
    (h : ∀ a, g a = a ∨ ((g a).id = a.id ∧ (g a).status ∈ S)) :
    OutcomesFor i S l (l.map g) := by
  intro j' hj' hid
  rcases List.mem_map.mp hj' with ⟨a, ha, rfl⟩
  rcases h a with hga | ⟨hgid, hgst⟩
  · refine Or.inl ⟨a, ha, ?_, ?_⟩
    · rw [hga] at hid; exact hid
    · rw [hga]
  · exact Or.inr hgst

lemma outcomesFor_updJob_ne (i : ℕ) (S : List Status) (jobId : ℕ) (f : Job → Job)
    (l : List Job) (hne : ¬ jobId = i) (hf : ∀ j, (f j).id = j.id) :
    OutcomesFor i S l (updJob jobId f l) := by
  intro j' hj' hid
  rcases List.mem_map.mp hj' with ⟨a, ha, rfl⟩
  by_cases h : a.id = jobId
  · simp only [h, if_true, hf a] at hid
    exact absurd hid hne
  · simp only [h, if_false] at hid ⊢
    exact Or.inl ⟨a, ha, hid, rfl⟩

lemma outcomesFor_append (i : ℕ) (S : List Status) (l : List Job) (jb : Job)
    (hst : jb.status ∈ S) : OutcomesFor i S l (l ++ [jb]) := by
  intro j' hj' hid
  rcases List.mem_append.mp hj' with hj' | hj'
  · exact Or.inl ⟨j', hj', hid, rfl⟩
  · simp only [List.mem_singleton] at hj'
    subst hj'
    exact Or.inr hst

lemma outcomesFor_setStatus (i : ℕ) (S : List Status) (s : AppState) (jobId : ℕ)
    (st : Status) (hst : st ∈ S) :
    OutcomesFor i S s.activeJobs (setStatus s jobId st).activeJobs := by
  apply outcomesFor_map
  intro a
  by_cases h : a.id = jobId
  · right
    refine ⟨by simp [h], ?_⟩
    simp only [h, if_true]
    exact hst
  · left
    simp [h]

lemma outcomesFor_startJob (i : ℕ) (S : List Status) (s : AppState) (jobId : ℕ)
    (hopt : Status.optimizing ∈ S) :
    OutcomesFor i S s.activeJobs (startJob s jobId).activeJobs := by
  rcases hfind : findJob s jobId with _ | job
  · simp only [startJob, hfind]
    exact outcomesFor_refl _ _ _
  · simp only [startJob, hfind]
    exact outcomesFor_setStatus i S s jobId Status.optimizing hopt

lemma outcomesFor_completeJob (i : ℕ) (S : List Status) (s : AppState) (jobId : ℕ)
    (hrfr : Status.readyForRemoval ∈ S) :
    OutcomesFor i S s.activeJobs (completeJob s jobId).activeJobs := by
  rcases hfind : findJob s jobId with _ | job
  · simp only [completeJob, hfind]
    exact outcomesFor_refl _ _ _
  · simp only [completeJob, hfind]
    apply outcomesFor_map
    intro a
    by_cases h : a.id = jobId
    · right
      refine ⟨by simp [h], ?_⟩
      simp only [h, if_true]
      exact hrfr
    · left
      simp [h]

lemma outcomesFor_requeuePending (i : ℕ) (S : List Status) (jobs : List Job)
    (deviceId : ℕ) (hque : Status.queued ∈ S) :
    OutcomesFor i S jobs (requeuePending jobs deviceId) := by
  apply outcomesFor_map
  intro a
  by_cases h : a.deviceId = deviceId ∧ a.status = Status.pendingDownloadsLimit
  · right
    refine ⟨by simp [h], ?_⟩
    simp only [h, if_true]
    exact hque
  · left
    simp [h]

lemma outcomesFor_closeHandler_ne (i : ℕ) (S : List Status) (s : AppState)
    (jobId : ℕ) (code : ℤ) (statSize : Option ℕ) (hne : ¬ jobId = i) :
    OutcomesFor i S s.activeJobs (closeHandler s jobId code statSize).activeJobs := by
  unfold closeHandler
  rcases hfind : findJob { s with ffmpegProcesses := procDelete jobId s.ffmpegProcesses }
      jobId with _ | j
  · simp only [hfind]
    exact outcomesFor_refl _ _ _
  · simp only [hfind]
    split_ifs with hcode
    · exact outcomesFor_updJob_ne i S jobId
        (fun j => { j with status := Status.completed, progress := 100, size := statSize.getD j.size })
        s.activeJobs hne (fun _ => rfl)
    · exact outcomesFor_updJob_ne i S jobId
        (fun j => { j with status := Status.failed, progress := 0 })
        s.activeJobs hne (fun _ => rfl)

lemma outcomesFor_checkQueueGo (cfg : Config) (i : ℕ) (S : List Status)
    (hpend : Status.pendingDownloadsLimit ∈ S) (hopt : Status.optimizing ∈ S) :
    ∀ fuel s running k,
      OutcomesFor i S s.activeJobs (checkQueueGo cfg s running k fuel).activeJobs := by
  intro fuel
  induction fuel with
  | zero => intro s running k; exact outcomesFor_refl _ _ _
  | succ fuel ih =>
    intro s running k
    simp only [checkQueueGo]
    split_ifs with hlen hrun
    · exact outcomesFor_refl _ _ _
    · rcases hfind : findJob s (s.jobQueue.getD k 0) with _ | nextJob
      · simp only [hfind]
        exact outcomesFor_refl _ _ _
      · simp only [hfind]
        rcases huser : userTooManyCachedItems cfg s (s.jobQueue.getD k 0) with _ | b
        · simp only [huser]
          exact outcomesFor_refl _ _ _
        · cases b
          · simp only [huser]
            exact outcomesFor_trans
              (outcomesFor_setStatus i S s _ Status.pendingDownloadsLimit hpend)
              (ih _ running (k + 1))
          · simp only [huser]
            cases hdev : isDeviceIdInOptimizeHistory s nextJob
            · simp only [hdev, Bool.false_eq_true, if_false]
              refine outcomesFor_trans ?_ (ih _ (running + 1) (k + 1))
              show OutcomesFor i S s.activeJobs (startJob s (s.jobQueue.getD k 0)).activeJobs
              exact outcomesFor_startJob i S s _ hopt
            · simp only [hdev, if_true]
              exact ih s running (k + 1)
    · exact outcomesFor_refl _ _ _

lemma outcomesFor_checkQueue (cfg : Config) (i : ℕ) (S : List Status) (s : AppState)
    (hpend : Status.pendingDownloadsLimit ∈ S) (hopt : Status.optimizing ∈ S) :
    OutcomesFor i S s.activeJobs (checkQueue cfg s).activeJobs :=
  outcomesFor_checkQueueGo cfg i S hpend hopt s.jobQueue.length s
    (countOptimizing s.activeJobs) 0

lemma outcomesFor_finalize (cfg : Config) (jobOpt : Option Job) (jobId : ℕ)
    (t : AppState) (i : ℕ) (S : List Status)
    (hpend : Status.pendingDownloadsLimit ∈ S) (hopt : Status.optimizing ∈ S)
    (hque : Status.queued ∈ S) (t' : AppState)
    (heq : finalizeJobRemoval cfg jobOpt jobId t = some t') :
    OutcomesFor i S t.activeJobs t'.activeJobs := by
  unfold finalizeJobRemoval at heq
  rcases jobOpt with _ | job
  · by_cases hemp : t.activeJobs.isEmpty
    · simp only [hemp, if_true, Option.some.injEq] at heq
      subst heq
      exact outcomesFor_checkQueue cfg i S t hpend hopt
    · simp [hemp] at heq
  · simp only [Option.some.injEq] at heq
    subst heq
    refine outcomesFor_trans ?_ (outcomesFor_checkQueue cfg i S _ hpend hopt)
    refine outcomesFor_trans ?_ (outcomesFor_requeuePending i S _ job.deviceId hque)
    split_ifs with hcond
    · exact outcomesFor_of_subset i S (fun j hj => List.mem_of_mem_filter hj)
    · exact outcomesFor_refl _ _ _

lemma outcomesFor_cancelJob (cfg : Config) (s : AppState) (jobId : ℕ) (i : ℕ)
    (S : List Status) (hpend : Status.pendingDownloadsLimit ∈ S)
    (hopt : Status.optimizing ∈ S) (hque : Status.queued ∈ S)
    (hrfr : Status.readyForRemoval ∈ S) :
    OutcomesFor i S s.activeJobs (cancelJob cfg s jobId).2.activeJobs := by
  have h1 : OutcomesFor i S s.activeJobs (completeJob s jobId).activeJobs :=
    outcomesFor_completeJob i S s jobId hrfr
  unfold cancelJob
  by_cases hproc : jobId ∈ (completeJob s jobId).ffmpegProcesses
  · rw [if_pos hproc]
    rcases hfin : finalizeJobRemoval cfg (findJob (completeJob s jobId) jobId) jobId
        { completeJob s jobId with
          ffmpegProcesses := procDelete jobId (completeJob s jobId).ffmpegProcesses }
      with _ | s3
    · simp only [hfin]
      exact h1
    · simp only [hfin]
      exact outcomesFor_trans h1
        (outcomesFor_finalize cfg _ jobId
          { completeJob s jobId with
            ffmpegProcesses := procDelete jobId (completeJob s jobId).ffmpegProcesses }
          i S hpend hopt hque s3 hfin)
  · rw [if_neg hproc]
    rcases hfin : finalizeJobRemoval cfg (findJob (completeJob s jobId) jobId) jobId
        (completeJob s jobId) with _ | s2
    · simp only [hfin]
      exact h1
    · simp only [hfin]
      exact outcomesFor_trans h1
        (outcomesFor_finalize cfg _ jobId (completeJob s jobId) i S hpend hopt hque s2 hfin)

lemma outcomesFor_manuallyStartJob (s : AppState) (jobId : ℕ) (i : ℕ)
    (S : List Status) (hopt : Status.optimizing ∈ S) :
    OutcomesFor i S s.activeJobs (manuallyStartJob s jobId).2.activeJobs := by
  rcases hfind : findJob s jobId with _ | job
  · simp only [manuallyStartJob, hfind]
    exact outcomesFor_refl _ _ _
  · simp only [manuallyStartJob, hfind]
    split_ifs with hq
    · exact outcomesFor_startJob i S s jobId hopt
    · exact outcomesFor_refl _ _ _

lemma outcomesFor_downloadAndCombine (cfg : Config) (s : AppState) (url : String)
    (deviceId itemId : ℕ) (i : ℕ) (S : List Status)
    (hque : Status.queued ∈ S) (hpend : Status.pendingDownloadsLimit ∈ S)
    (hopt : Status.optimizing ∈ S) :
    OutcomesFor i S s.activeJobs (downloadAndCombine cfg s url deviceId itemId).2.activeJobs := by
  refine outcomesFor_trans
    (outcomesFor_append i S s.activeJobs
      { id := s.nextId, status := Status.queued, progress := 0,
        outputPath := mkOutputPath s.nextId, inputUrl := url,
        deviceId := deviceId, itemId := itemId, timestamp := s.now,
        size := 0, speed := none } hque) ?_
  exact outcomesFor_checkQueue cfg i S
    { s with
      activeJobs := s.activeJobs ++
        [{ id := s.nextId, status := Status.queued, progress := 0,
           outputPath := mkOutputPath s.nextId, inputUrl := url,
           deviceId := deviceId, itemId := itemId, timestamp := s.now,
           size := 0, speed := none }],
      jobQueue := s.jobQueue ++ [s.nextId],
      nextId := s.nextId + 1 } hpend hopt

/-! ### The cap-zero admission pass -/

lemma pendingOnly_refl (l : List Job) : PendingOnly l l :=
  fun j' hj' => ⟨j', hj', rfl, Or.inl rfl⟩

lemma pendingOnly_trans {l1 l2 l3 : List Job} (h12 : PendingOnly l1 l2)
    (h23 : PendingOnly l2 l3) : PendingOnly l1 l3 := by
  intro j' hj'
  obtain ⟨j, hj, hjid, hst⟩ := h23 j' hj'
  obtain ⟨j0, hj0, hj0id, hst0⟩ := h12 j hj
  refine ⟨j0, hj0, hj0id.trans hjid, ?_⟩
  rcases hst with hst | hst
  · rcases hst0 with hst0 | hst0
    · exact Or.inl (hst.trans hst0)
    · exact Or.inr (hst.trans hst0)
  · exact Or.inr hst

lemma pendingOnly_setStatus (s : AppState) (jobId : ℕ) :
    PendingOnly s.activeJobs (setStatus s jobId Status.pendingDownloadsLimit).activeJobs := by
  intro j' hj'
  rcases List.mem_map.mp hj' with ⟨a, ha, rfl⟩
  by_cases h : a.id = jobId
  · exact ⟨a, ha, by simp [h], Or.inr (by simp [h])⟩
  · exact ⟨a, ha, by simp [h], Or.inl (by simp [h])⟩

lemma setStatus_status_of_id (s : AppState) (jobId : ℕ) (st : Status) (j : Job)
    (hj : j ∈ (setStatus s jobId st).activeJobs) (hid : j.id = jobId) :
    j.status = st := by
  rcases List.mem_map.mp hj with ⟨a, ha, rfl⟩
  by_cases h : a.id = jobId
  · simp [h]
  · simp only [h, if_false] at hid

lemma record_exists_setStatus (s : AppState) (jobId : ℕ) (st : Status) (n : ℕ)
    (h : ∃ j ∈ s.activeJobs, j.id = n) :
    ∃ j ∈ (setStatus s jobId st).activeJobs, j.id = n := by
  obtain ⟨j, hj, hjid⟩ := h
  by_cases hcase : j.id = jobId
  · refine ⟨{ j with status := st }, ?_, hjid⟩
    apply List.mem_map.mpr
    exact ⟨j, hj, by simp [hcase]⟩
  · refine ⟨j, ?_, hjid⟩
    apply List.mem_map.mpr
    exact ⟨j, hj, by simp [hcase]⟩

lemma userTooManyCachedItems_capZero (cfg : Config)
    (hcap : cfg.maxCachedPerUser = 0) (s : AppState) (jobId : ℕ) :
    userTooManyCachedItems cfg s jobId = some false := by
  unfold userTooManyCachedItems
  rw [if_pos hcap]

lemma checkQueueGo_capZero (cfg : Config) (hcap : cfg.maxCachedPerUser = 0) :
    ∀ fuel s running k,
      (checkQueueGo cfg s running k fuel).jobQueue = s.jobQueue ∧
      (checkQueueGo cfg s running k fuel).ffmpegProcesses = s.ffmpegProcesses ∧
      PendingOnly s.activeJobs (checkQueueGo cfg s running k fuel).activeJobs := by
  intro fuel
  induction fuel with
  | zero => intro s running k; exact ⟨rfl, rfl, pendingOnly_refl _⟩
  | succ fuel ih =>
    intro s running k
    simp only [checkQueueGo]
    split_ifs with hlen hrun
    · exact ⟨rfl, rfl, pendingOnly_refl _⟩
    · rcases hfind : findJob s (s.jobQueue.getD k 0) with _ | nextJob
      · simp only [hfind]
        refine ⟨?_, ?_, ?_⟩ <;> first | rfl | trivial | exact pendingOnly_refl _
      · simp only [hfind, userTooManyCachedItems_capZero cfg hcap]
        obtain ⟨h1, h2, h3⟩ :=
          ih (setStatus s (s.jobQueue.getD k 0) Status.pendingDownloadsLimit) running (k + 1)
        refine ⟨?_, ?_, pendingOnly_trans (pendingOnly_setStatus s _) h3⟩
        · rw [h1]; rfl
        · rw [h2]; rfl
    · exact ⟨rfl, rfl, pendingOnly_refl _⟩

lemma checkQueueGo_capZero_marks (cfg : Config) (hcap : cfg.maxCachedPerUser = 0) :
    ∀ fuel s running k,
      running < cfg.maxConcurrentJobs →
      s.jobQueue.length - k ≤ fuel →
      (∀ n ∈ s.jobQueue.drop k, ∃ j ∈ s.activeJobs, j.id = n) →
      ∀ n ∈ s.jobQueue.drop k, ∀ j' ∈ (checkQueueGo cfg s running k fuel).activeJobs,
        j'.id = n → j'.status = Status.pendingDownloadsLimit := by
  intro fuel
  induction fuel with
  | zero =>
    intro s running k _ hfuel _ n hn
    have : s.jobQueue.drop k = [] := List.drop_eq_nil_of_le (by omega)
    rw [this] at hn
    exact absurd hn (List.not_mem_nil n)
  | succ fuel ih =>
    intro s running k hrun hfuel hrec n hn j' hj' hid
    by_cases hlen : k < s.jobQueue.length
    · have hdropk : s.jobQueue.drop k = s.jobQueue.getD k 0 :: s.jobQueue.drop (k + 1) := by
        rw [List.getD_eq_getElem s.jobQueue 0 hlen]
        exact List.drop_eq_getElem_cons hlen
      have hfind : ∃ j ∈ s.activeJobs, j.id = s.jobQueue.getD k 0 := by
        apply hrec
        rw [hdropk]
        exact List.mem_cons_self _ _
      rcases hf : findJob s (s.jobQueue.getD k 0) with _ | nextJob
      · exfalso
        obtain ⟨j, hj, hjid⟩ := hfind
        have : (s.activeJobs.find? (fun j => j.id = s.jobQueue.getD k 0)).isSome := by
          rw [List.find?_isSome]
          exact ⟨j, hj, by simp [hjid]⟩
        rw [show s.activeJobs.find? (fun j => j.id = s.jobQueue.getD k 0) =
            findJob s (s.jobQueue.getD k 0) from rfl, hf] at this
        simp at this
      · have hbody : checkQueueGo cfg s running k (fuel + 1) =
            checkQueueGo cfg (setStatus s (s.jobQueue.getD k 0) Status.pendingDownloadsLimit)
              running (k + 1) fuel := by
          simp only [checkQueueGo]
          rw [if_pos hlen, if_neg (by omega), hf,
            userTooManyCachedItems_capZero cfg hcap]
        rw [hbody] at hj'
        set s' := setStatus s (s.jobQueue.getD k 0) Status.pendingDownloadsLimit with hs'
        rw [hdropk] at hn
        rcases List.mem_cons.mp hn with hn | hn
        · -- n is the id handled at this index: every same-id record is pending in s'
          -- and the rest of the pass only keeps or re-marks pending statuses
          obtain ⟨h1, h2, h3⟩ := checkQueueGo_capZero cfg hcap fuel s' running (k + 1)
          obtain ⟨j, hj, hjid, hst⟩ := h3 j' hj'
          have hjpend : j.status = Status.pendingDownloadsLimit := by
            apply setStatus_status_of_id s _ _ j hj
            rw [hjid, hid, hn]
          rcases hst with hst | hst
          · rw [hst, hjpend]
          · exact hst
        · -- n is a later queue entry: apply the induction hypothesis to s'
          apply ih s' running (k + 1) hrun (by simp [hs', setStatus]; omega)
            (fun m hm => record_exists_setStatus s _ _ m (hrec m (by rw [hdropk]; exact List.mem_cons_of_mem _ hm)))
            n (by simpa [hs', setStatus] using hn) j' hj' hid
    · have : s.jobQueue.drop k = [] := List.drop_eq_nil_of_le (by omega)
      rw [this] at hn
      exact absurd hn (List.not_mem_nil n)

lemma outcomesFor_step (cfg : Config) (s : AppState) (e : Event) (i : ℕ)
    (S : List Status) (hque : Status.queued ∈ S)
    (hpend : Status.pendingDownloadsLimit ∈ S) (hopt : Status.optimizing ∈ S)
    (hrfr : Status.readyForRemoval ∈ S) (hproc : i ∉ s.ffmpegProcesses) :
    OutcomesFor i S s.activeJobs (step cfg s e).activeJobs := by
  cases e with
  | submit url deviceId itemId =>
    exact outcomesFor_downloadAndCombine cfg s url deviceId itemId i S hque hpend hopt
  | processExit jobId code statSize =>
    show OutcomesFor i S s.activeJobs
      (if jobId ∈ s.ffmpegProcesses then _ else s).activeJobs
    by_cases hj : jobId ∈ s.ffmpegProcesses
    · rw [if_pos hj]
      have hne : ¬ jobId = i := fun hc => hproc (hc ▸ hj)
      have h1 := outcomesFor_closeHandler_ne i S s jobId code statSize hne
      by_cases hset : closeSettles (closeHandler s jobId code statSize) jobId code = true
      · rw [if_pos hset]
        exact outcomesFor_trans h1 (outcomesFor_checkQueue cfg i S _ hpend hopt)
      · rw [if_neg hset]
        exact h1
    · rw [if_neg hj]
      exact outcomesFor_refl _ _ _
  | procError jobId => exact outcomesFor_refl _ _ _
  | cancel jobId =>
    exact outcomesFor_cancelJob cfg s jobId i S hpend hopt hque hrfr
  | manualStart jobId =>
    exact outcomesFor_manuallyStartJob s jobId i S hopt

/-! ### The rotation trim in closed form -/

lemma trimHistory_eq_drop (amount : ℕ) :
    ∀ l : List Job, trimHistory amount l = l.drop (l.length + 1 - amount) := by
  intro l
  induction l with
  | nil => simp [trimHistory]
  | cons h t ih =>
    simp only [trimHistory]
    split_ifs with hc
    · rw [ih]
      have harith : (h :: t).length + 1 - amount = (t.length + 1 - amount) + 1 := by
        simp only [List.length_cons]
        omega
      rw [harith]
      rfl
    · have harith : (h :: t).length + 1 - amount = 0 := by
        simp only [List.length_cons]
        omega
      rw [harith, List.drop_zero]

/-! ### Claim C1 — the concurrency cap -/

/-- C1 as stated is false: a manual start (`manuallyStartJob`) bypasses the
admission pass, so with `MAX_CONCURRENT_JOBS = 1` two submissions followed by
a manual start of the second job leave two jobs in `optimizing` at once. -/
theorem c1_counterexample :
    cfgOne.maxConcurrentJobs = 1 ∧
    (∀ e ∈ burstWithManualStart, e = Event.manualStart 1 ∨ isManualStart e = false) ∧
    countOptimizing (run cfgOne initState burstWithManualStart).activeJobs = 2 := by
  refine ⟨rfl, by decide, by decide⟩

/-- C1 (amended): over every sequence of job submissions, worker-process
exits and cancellations — with no manual starts — the number of jobs in
`optimizing` never exceeds the configured concurrency limit. -/
theorem c1_amended (cfg : Config) (events : List Event)
    (h : ∀ e ∈ events, isManualStart e = false) :
    countOptimizing (run cfg initState events).activeJobs ≤ cfg.maxConcurrentJobs :=
  (run_inv cfg events initState (initState_inv cfg) h).2

/-- Witness for C1 (amended) on a concrete manual-start-free burst. -/
theorem c1_amended_witness :
    countOptimizing (run cfgOne initState twoSubmits).activeJobs ≤
      cfgOne.maxConcurrentJobs :=
  c1_amended cfgOne twoSubmits (by decide)

/-! ### Claim C2 — the fairness rotation trim -/

/-- C2 as stated is false: with exactly one distinct queued device, the
source's trim loop (`while (amount <= length && length > 0) shift()`) empties
the rotation list entirely, while a trim "until the length is less than or
equal to the number of distinct queued devices" would keep the appended
entry. -/
theorem c2_counterexample :
    (getActiveJobDeviceIds stateOneQueued).length = 1 ∧
    (handleOptimizationHistory stateOneQueued jobStartedDev1).optimizationHistory = [] ∧
    handleOptimizationHistoryPerSpec stateOneQueued jobStartedDev1 = [jobStartedDev1] ∧
    ([] : List Job) ≠ [jobStartedDev1] := by
  refine ⟨rfl, rfl, rfl, by decide⟩

/-- C2 (amended): when a job is started its record is appended to the
rotation list, which is then trimmed from the oldest entry until its length
is strictly less than the number of distinct device ids among `queued` jobs
(emptied entirely when that number is zero or one): the kept suffix has
length `min (previous length + 1) (distinct queued devices - 1)`. -/
theorem c2_amended (s : AppState) (job : Job) :
    (handleOptimizationHistory s job).optimizationHistory =
      (s.optimizationHistory ++ [job]).drop
        ((s.optimizationHistory ++ [job]).length + 1 - (getActiveJobDeviceIds s).length) ∧
    (handleOptimizationHistory s job).optimizationHistory.length =
      min (s.optimizationHistory.length + 1) ((getActiveJobDeviceIds s).length - 1) := by
  have hdrop := trimHistory_eq_drop (getActiveJobDeviceIds s).length
    (s.optimizationHistory ++ [job])
  constructor
  · exact hdrop
  · show (trimHistory (getActiveJobDeviceIds s).length
      (s.optimizationHistory ++ [job])).length = _
    rw [hdrop, List.length_drop, List.length_append]
    simp only [List.length_cons, List.length_nil]
    omega

/-! ### Claim C3 — leaving the pending-downloads-limit status -/

/-- C3 as stated is false: after `pendingTrace` job 1 sits in
`'pending downloads limit'`, and the admission pass triggered by an unrelated
submission starts it directly — it transitions straight to `optimizing`,
never passing through `queued`. -/
theorem c3_counterexample :
    (findJob (run cfgWide initState pendingTrace) 1).map Job.status =
      some Status.pendingDownloadsLimit ∧
    (findJob (step cfgWide (run cfgWide initState pendingTrace)
        (Event.submit "u" 2 0)) 1).map Job.status = some Status.optimizing ∧
    Status.optimizing ≠ Status.queued := by
  refine ⟨by decide, by decide, by decide⟩

/-- C3 (amended): a job sitting in `'pending downloads limit'` (with no
tracked worker process) is moved by any single scheduler event only to
`queued` (same-device cancellation requeue), directly to `optimizing` (an
admission pass whose cache-cap check now passes), to `ready-for-removal`
(its own cancellation), or it stays pending — never to `completed`,
`failed` or `cancelled`. -/
theorem c3_amended (cfg : Config) (s : AppState) (e : Event) (i : ℕ)
    (hpend : ∀ j ∈ s.activeJobs, j.id = i → j.status = Status.pendingDownloadsLimit)
    (hproc : i ∉ s.ffmpegProcesses) :
    ∀ j' ∈ (step cfg s e).activeJobs, j'.id = i →
      j'.status ∈ [Status.pendingDownloadsLimit, Status.queued, Status.optimizing,
        Status.readyForRemoval] := by
  intro j' hj' hid
  have h := outcomesFor_step cfg s e i
    [Status.pendingDownloadsLimit, Status.queued, Status.optimizing,
      Status.readyForRemoval]
    (by simp) (by simp) (by simp) (by simp) hproc j' hj' hid
  rcases h with ⟨j, hj, hjid, hst⟩ | hst
  · rw [hst, hpend j hj hjid]
    simp
  · exact hst

/-- Witness for C3 (amended) at the concrete pending job of `pendingTrace`. -/
theorem c3_amended_witness :
    job1AfterStart.status ∈ [Status.pendingDownloadsLimit, Status.queued,
      Status.optimizing, Status.readyForRemoval] :=
  c3_amended cfgWide (run cfgWide initState pendingTrace) (Event.submit "u" 2 0) 1
    (by decide) (by decide) job1AfterStart (by decide) (by decide)

/-! ### Claim C4 — the progress formula -/

/-- C4: with a known positive total duration, every elapsed-time marker sets
progress to `max (min (elapsed / total * 100) 99.9) 0`; the value never
exceeds `99.9`, it is non-decreasing in the elapsed marker, and a worker
exit with code `0` forces the job's progress to exactly `100`. -/
theorem c4 (t : ℚ) (ht : 0 < t) (hh1 mm1 ss1 hh2 mm2 ss2 : ℕ) (p q : ℚ)
    (hmono : parseTimeSeconds hh1 mm1 ss1 ≤ parseTimeSeconds hh2 mm2 ss2) :
    updateProgress (some t) hh1 mm1 ss1 p =
      max (min ((parseTimeSeconds hh1 mm1 ss1 : ℚ) / t * 100) (999 / 10)) 0 ∧
    updateProgress (some t) hh1 mm1 ss1 p ≤ 999 / 10 ∧
    updateProgress (some t) hh1 mm1 ss1 p ≤ updateProgress (some t) hh2 mm2 ss2 q ∧
    (∀ (s : AppState) (jobId : ℕ) (statSize : Option ℕ) (j : Job),
      j ∈ (closeHandler s jobId 0 statSize).activeJobs → j.id = jobId →
        j.progress = 100 ∧ j.status = Status.completed) := by
  have hform : ∀ (hh mm ss : ℕ) (r : ℚ), updateProgress (some t) hh mm ss r =
      max (min ((parseTimeSeconds hh mm ss : ℚ) / t * 100) (999 / 10)) 0 := by
    intro hh mm ss r
    simp only [updateProgress, if_neg (ne_of_gt ht)]
  refine ⟨hform hh1 mm1 ss1 p, ?_, ?_, ?_⟩
  · rw [hform]
    exact max_le (min_le_right _ _) (by norm_num)
  · rw [hform, hform]
    have hcast : (parseTimeSeconds hh1 mm1 ss1 : ℚ) ≤ (parseTimeSeconds hh2 mm2 ss2 : ℚ) := by
      exact_mod_cast hmono
    have hdiv : (parseTimeSeconds hh1 mm1 ss1 : ℚ) / t ≤
        (parseTimeSeconds hh2 mm2 ss2 : ℚ) / t :=
      (div_le_div_iff_of_pos_right ht).mpr hcast
    exact max_le_max
      (min_le_min (mul_le_mul_of_nonneg_right hdiv (by norm_num)) (le_refl _))
      (le_refl _)
  · intro s jobId statSize j hj hid
    unfold closeHandler at hj
    rcases hfind : findJob { s with ffmpegProcesses := procDelete jobId s.ffmpegProcesses }
        jobId with _ | j0
    · simp only [hfind] at hj
      have := List.find?_eq_none.mp hfind j hj
      simp [hid] at this
    · simp only [hfind, if_pos rfl] at hj
      rcases List.mem_map.mp hj with ⟨a, _, rfl⟩
      by_cases hcase : a.id = jobId
      · simp [hcase]
      · simp only [hcase, if_false] at hid

/-- Witness for C4 at a concrete duration and pair of markers. -/
theorem c4_witness :
    updateProgress (some 2) 0 0 1 0 =
      max (min ((parseTimeSeconds 0 0 1 : ℚ) / 2 * 100) (999 / 10)) 0 ∧
    updateProgress (some 2) 0 0 1 0 ≤ 999 / 10 ∧
    updateProgress (some 2) 0 0 1 0 ≤ updateProgress (some 2) 0 0 2 0 := by
  obtain ⟨h1, h2, h3, _⟩ := c4 2 (by norm_num) 0 0 1 0 0 2 0 0 (by decide)
  exact ⟨h1, h2, h3⟩

/-! ### Claim C5 — worker exit and error handling -/

/-- C5 as stated is false in its error-event part: the supervisor's
`'error'` listener only logs (its `reject(error)` is commented out), so a
process-level error event leaves an `optimizing` job in `optimizing` — not
in the `failed` state a non-zero exit produces. -/
theorem c5_counterexample :
    (findJob (errorHandler stateOptim 0) 0).map Job.status = some Status.optimizing ∧
    Status.optimizing ≠ Status.failed := by
  refine ⟨rfl, by decide⟩

/-- C5 (amended): a worker exit with code `0` marks the job `completed` with
`progress = 100` and records the stat size; a non-zero exit marks it
`failed` with `progress = 0`; a process-level `error` event is logged only —
it changes no job state, and nothing is thrown past the supervisor. -/
theorem c5_amended (s : AppState) (jobId : ℕ) (sz : ℕ) (code : ℤ)
    (hcode : ¬ code = 0) :
    (∀ j ∈ (closeHandler s jobId 0 (some sz)).activeJobs, j.id = jobId →
      j.status = Status.completed ∧ j.progress = 100 ∧ j.size = sz) ∧
    (∀ j ∈ (closeHandler s jobId code (some sz)).activeJobs, j.id = jobId →
      j.status = Status.failed ∧ j.progress = 0) ∧
    (∀ t : AppState, errorHandler t jobId = t) := by
  refine ⟨?_, ?_, fun t => rfl⟩
  · intro j hj hid
    unfold closeHandler at hj
    rcases hfind : findJob { s with ffmpegProcesses := procDelete jobId s.ffmpegProcesses }
        jobId with _ | j0
    · simp only [hfind] at hj
      have := List.find?_eq_none.mp hfind j hj
      simp [hid] at this
    · simp only [hfind, if_pos rfl] at hj
      rcases List.mem_map.mp hj with ⟨a, _, rfl⟩
      by_cases hcase : a.id = jobId
      · simp [hcase]
      · simp only [hcase, if_false] at hid
  · intro j hj hid
    unfold closeHandler at hj
    rcases hfind : findJob { s with ffmpegProcesses := procDelete jobId s.ffmpegProcesses }
        jobId with _ | j0
    · simp only [hfind] at hj
      have := List.find?_eq_none.mp hfind j hj
      simp [hid] at this
    · simp only [hfind, if_neg hcode] at hj
      rcases List.mem_map.mp hj with ⟨a, _, rfl⟩
      by_cases hcase : a.id = jobId
      · simp [hcase]
      · simp only [hcase, if_false] at hid

/-- Witness for C5 (amended) on a concrete exiting worker. -/
theorem c5_amended_witness :
    jobDone.status = Status.completed ∧ jobDone.progress = 100 ∧ jobDone.size = 7 := by
  obtain ⟨h1, _, _⟩ := c5_amended stateOptim 0 7 1 (by decide)
  exact h1 jobDone (by decide) (by decide)

/-! ### Claim C6 — integrity verification before download -/

/-- C6: before any bytes of a completed job's file are served, the SHA-256
digest and size of the full file are obtained; a failed digest/size
computation (`contents = none`) or a size mismatch fails the request with no
response served, and every served response carries the digest of the full
file contents together with the stat size. -/
theorem c6 (jobs : List Job) (jobId : ℕ) (size : ℕ) (digest : List ℕ → String)
    (rangeHeader : Option (ℕ × Option ℕ)) :
    (∀ r, downloadTranscodedFile jobs jobId (some size) digest none rangeHeader ≠
      Except.ok r) ∧
    (∀ bytes r, bytes.length ≠ size →
      downloadTranscodedFile jobs jobId (some size) digest (some bytes) rangeHeader ≠
        Except.ok r) ∧
    (∀ bytes r,
      downloadTranscodedFile jobs jobId (some size) digest (some bytes) rangeHeader =
        Except.ok r →
      bytes.length = size ∧ r.checksumHeader = digest bytes ∧ r.sizeHeader = size) := by
  refine ⟨?_, ?_, ?_⟩
  · intro r
    unfold downloadTranscodedFile
    cases getTranscodedFilePath jobs jobId <;> simp [validateFileIntegrity]
  · intro bytes r hlen
    unfold downloadTranscodedFile
    cases getTranscodedFilePath jobs jobId <;> simp [validateFileIntegrity, hlen]
  · intro bytes r hok
    unfold downloadTranscodedFile at hok
    cases hpath : getTranscodedFilePath jobs jobId with
    | none =>
      rw [hpath] at hok
      exact absurd hok (by simp)
    | some p =>
      simp only [hpath, validateFileIntegrity] at hok
      by_cases hv : bytes.length = size
      · refine ⟨hv, ?_⟩
        rw [if_neg (by simp [hv])] at hok
        cases hr : parseRangeHeader rangeHeader size with
        | none =>
          simp only [hr] at hok
          injection hok with h
          subst h
          exact ⟨rfl, rfl⟩
        | some rg =>
          simp only [hr] at hok
          injection hok with h
          subst h
          exact ⟨rfl, rfl⟩
      · exfalso
        rw [if_pos (by simp [hv])] at hok
        exact absurd hok (by simp)

/-- Witness for C6 on a concrete completed job: with the digest unavailable
the request fails instead of serving a response. -/
theorem c6_witness :
    downloadTranscodedFile [jobCompleted3] 3 (some 4) (fun _ => "d") none none ≠
      Except.ok respSample :=
  (c6 [jobCompleted3] 3 4 (fun _ => "d") none).1 respSample

/-! ### Claim C7 — the orphan sweep -/

/-- C7 as stated is false on the empty job table: with no job records the
sweep returns before listing the cache directory, so a file that matches no
job's `outputPath` is not deleted. -/
theorem c7_counterexample :
    pathJoin "cache" "a.mp4" ∉ handleCleanup [] "cache" ["a.mp4"] 0 0 ∧
    pathJoin "cache" "a.mp4" ∉ ([] : List Job).map (fun j => j.outputPath) := by
  refine ⟨by decide, by decide⟩

/-- C7 (amended): on a sweep over a non-empty job table with pairwise
distinct output paths, every cache file matching no job's `outputPath` is
deleted, and a file matching an `optimizing` job's `outputPath` is not
deleted by either phase of the sweep. -/
theorem c7_amended (jobs : List Job) (cacheDir : String) (files : List String)
    (now delay : ℕ) (hne : jobs ≠ [])
    (hnd : (jobs.map (fun j => j.outputPath)).Nodup) :
    (∀ file ∈ files, (∀ j ∈ jobs, j.outputPath ≠ pathJoin cacheDir file) →
      pathJoin cacheDir file ∈ handleCleanup jobs cacheDir files now delay) ∧
    (∀ file ∈ files,
      (∃ j ∈ jobs, j.outputPath = pathJoin cacheDir file ∧ j.status = Status.optimizing) →
      pathJoin cacheDir file ∉ handleCleanup jobs cacheDir files now delay) := by
  have hcond : ¬ ((jobs.map (fun j => j.outputPath)).dedup.length = 0) := by
    intro hzero
    rw [List.length_eq_zero, List.dedup_eq_nil, List.map_eq_nil_iff] at hzero
    exact hne hzero
  constructor
  · intro file hfile hmatch
    unfold handleCleanup
    rw [if_neg hcond]
    apply List.mem_append_left
    apply List.mem_map.mpr
    refine ⟨file, ?_, rfl⟩
    unfold orphanFiles
    apply List.mem_filter.mpr
    refine ⟨hfile, ?_⟩
    rw [decide_eq_true_eq]
    intro hcontains
    rcases List.mem_map.mp hcontains with ⟨j, hj, hjeq⟩
    exact hmatch j hj hjeq
  · rintro file hfile ⟨j, hj, hjout, hjst⟩
    unfold handleCleanup
    rw [if_neg hcond]
    intro hmem
    rcases List.mem_append.mp hmem with hmem | hmem
    · rcases List.mem_map.mp hmem with ⟨msc, hmsc, heq⟩
      have hpred := (List.mem_filter.mp hmsc).2
      rw [decide_eq_true_eq] at hpred
      apply hpred
      rw [heq]
      exact List.mem_map.mpr ⟨j, hj, hjout⟩
    · unfold expiredJobFiles at hmem
      rcases List.mem_map.mp hmem with ⟨j', hj', hout'⟩
      have hj'mem : j' ∈ jobs := ((List.mem_filter.mp (List.mem_filter.mp hj').1).1)
      have hst' : j'.status = Status.readyForRemoval := by
        have h1 := (List.mem_filter.mp hj').2
        simpa using h1
      have hjj' : j = j' := by
        apply List.inj_on_of_nodup_map hnd hj hj'mem
        rw [hjout, hout']
      rw [← hjj'] at hst'
      rw [hjst] at hst'
      exact Status.noConfusion hst'

/-- Witness for C7 (amended): a non-matching file on a one-job table is
swept. -/
theorem c7_amended_witness :
    pathJoin "cache" "x.mp4" ∈ handleCleanup [jobCompleted3] "cache" ["x.mp4"] 0 0 := by
  have h := c7_amended [jobCompleted3] "cache" ["x.mp4"] 0 0 (by decide) (by decide)
  exact h.1 "x.mp4" (by decide) (by decide)

/-! ### Claim C8 — the retryable delete -/

lemma removeFileGo_bounds (envs : ℕ → AttemptEnv) :
    ∀ retries k unlinks backs,
      (removeFileGo envs retries k unlinks backs).unlinkCalls ≤ unlinks + retries ∧
      (removeFileGo envs retries k unlinks backs).backoffs ≤ backs + (retries - 1) := by
  intro retries
  induction retries with
  | zero =>
    intro k u b
    simp [removeFileGo]
  | succ r ih =>
    intro k u b
    simp only [removeFileGo]
    split_ifs with h1 h2 h3 h3
    · simp
    · obtain ⟨hu, hb⟩ := ih (k + 1) u (b + 1)
      constructor <;> omega
    · simp
    · rcases hu : (envs k).unlink with _ | _ | _ <;> dsimp only
      · simp
      · obtain ⟨hu2, hb2⟩ := ih (k + 1) (u + 1) (b + 1)
        constructor <;> omega
      · simp
    · rcases hu : (envs k).unlink with _ | _ | _ <;> dsimp only
      · simp
      · simp [h3]
      · simp

/-- C8: `removeFile` makes at most 3 unlink attempts with at most 2 backoff
waits, returns immediately when the file is already gone, treats a probe
that fails or times out as not-deletable (retrying without unlinking until
the budget is exhausted, then giving up), and always returns normally with
one of its three outcomes — no deletion failure escapes to the caller. -/
theorem c8 (envs : ℕ → AttemptEnv) :
    (removeFile envs).unlinkCalls ≤ 3 ∧
    (removeFile envs).backoffs ≤ 2 ∧
    ((envs 0).present = false →
      removeFile envs =
        { outcome := RemoveOutcome.noFile, unlinkCalls := 0, backoffs := 0 }) ∧
    ((∀ k, (envs k).present = true ∧ (envs k).probe ≠ ProbeOutcome.deletable) →
      removeFile envs =
        { outcome := RemoveOutcome.gaveUp, unlinkCalls := 0, backoffs := 2 }) ∧
    ((removeFile envs).outcome = RemoveOutcome.noFile ∨
      (removeFile envs).outcome = RemoveOutcome.removed ∨
      (removeFile envs).outcome = RemoveOutcome.gaveUp) := by
  refine ⟨(removeFileGo_bounds envs 3 0 0 0).1, (removeFileGo_bounds envs 3 0 0 0).2, ?_, ?_, ?_⟩
  · intro hpres
    simp [removeFile, removeFileGo, hpres]
  · intro hall
    have e0 := hall 0
    have e1 := hall 1
    have e2 := hall 2
    simp [removeFile, removeFileGo, e0.1, e0.2, e1.1, e1.2, e2.1, e2.2]
  · cases h : (removeFile envs).outcome <;> simp [h]

/-- Witness for C8 on an always-timing-out probe. -/
theorem c8_witness :
    (removeFile envAllTimeout).unlinkCalls ≤ 3 ∧
    (removeFile envAllTimeout).backoffs ≤ 2 ∧
    removeFile envAllTimeout =
      { outcome := RemoveOutcome.gaveUp, unlinkCalls := 0, backoffs := 2 } := by
  obtain ⟨h1, h2, _, h4, _⟩ := c8 envAllTimeout
  exact ⟨h1, h2, h4 (fun k => ⟨rfl, fun hc => ProbeOutcome.noConfusion hc⟩)⟩

/-! ### Claim C9 — cancelJob on an unknown id -/

/-- C9 as stated is false on an empty job table: with no record and no
tracked process for the id, the requeue filter's callback never runs, so
`cancelJob` returns `true` instead of throwing. -/
theorem c9_counterexample :
    findJob initState 5 = none ∧ initState.ffmpegProcesses = [] ∧
    (cancelJob cfgOne initState 5).1 = CancelResult.ok true := by
  refine ⟨rfl, rfl, by decide⟩

/-- C9 (amended): when the job table is non-empty and holds no record for
the id (and no worker process is tracked for it), `cancelJob` throws — the
requeue filter dereferences the missing record's `deviceId`; and `cancelJob`
never returns `false` on any input. -/
theorem c9_amended (cfg : Config) (s : AppState) (jobId : ℕ)
    (hfind : findJob s jobId = none) (hproc : jobId ∉ s.ffmpegProcesses)
    (hne : s.activeJobs ≠ []) :
    (cancelJob cfg s jobId).1 = CancelResult.threw ∧
    ∀ (cfg' : Config) (t : AppState) (k : ℕ),
      (cancelJob cfg' t k).1 ≠ CancelResult.ok false := by
  constructor
  · have hc : completeJob s jobId = s := by
      unfold completeJob
      rw [hfind]
    have hemp : ¬ (s.activeJobs.isEmpty = true) := by
      simp only [List.isEmpty_iff]
      exact hne
    unfold cancelJob
    simp only [hc, hfind]
    rw [if_neg hproc]
    unfold finalizeJobRemoval
    rw [if_neg hemp]
  · intro cfg' t k
    unfold cancelJob
    by_cases hp : k ∈ (completeJob t k).ffmpegProcesses
    · rw [if_pos hp]
      rcases hfin : finalizeJobRemoval cfg' (findJob (completeJob t k) k) k
          { completeJob t k with
            ffmpegProcesses := procDelete k (completeJob t k).ffmpegProcesses }
        with _ | s3
      · simp [hfin]
      · simp [hfin]
    · rw [if_neg hp]
      rcases hfin : finalizeJobRemoval cfg' (findJob (completeJob t k) k) k
          (completeJob t k) with _ | s2
      · simp [hfin]
      · simp [hfin]

/-- Witness for C9 (amended) on a one-job table and an unknown id. -/
theorem c9_amended_witness :
    (cancelJob cfgOne stateOneQueued 99).1 = CancelResult.threw := by
  have h := c9_amended cfgOne stateOneQueued 99 (by decide) (by decide) (by decide)
  exact h.1

/-! ### Claim C10 — a zero per-device cache cap rejects everything -/

/-- C10: with `MAX_CACHED_PER_USER = 0` the cache-cap check returns the
rejecting value for every job, and an admission pass (over a queue whose ids
are all backed by records, while the concurrency cap is not already reached)
starts nothing — it registers no worker process, puts no new job into
`optimizing`, and marks every job in the work queue
`'pending downloads limit'`. -/
theorem c10 (cfg : Config) (s : AppState) (hcap : cfg.maxCachedPerUser = 0)
    (hrun : countOptimizing s.activeJobs < cfg.maxConcurrentJobs)
    (hrec : ∀ n ∈ s.jobQueue, ∃ j ∈ s.activeJobs, j.id = n) :
    (∀ jobId, userTooManyCachedItems cfg s jobId = some false) ∧
    (checkQueue cfg s).ffmpegProcesses = s.ffmpegProcesses ∧
    (∀ j' ∈ (checkQueue cfg s).activeJobs, j'.status = Status.optimizing →
      ∃ j ∈ s.activeJobs, j.id = j'.id ∧ j.status = Status.optimizing) ∧
    (∀ n ∈ s.jobQueue, ∀ j' ∈ (checkQueue cfg s).activeJobs, j'.id = n →
      j'.status = Status.pendingDownloadsLimit) := by
  refine ⟨fun jobId => userTooManyCachedItems_capZero cfg hcap s jobId, ?_, ?_, ?_⟩
  · exact (checkQueueGo_capZero cfg hcap s.jobQueue.length s
      (countOptimizing s.activeJobs) 0).2.1
  · intro j' hj' hst
    obtain ⟨j, hj, hjid, h⟩ := (checkQueueGo_capZero cfg hcap s.jobQueue.length s
      (countOptimizing s.activeJobs) 0).2.2 j' hj'
    rcases h with h | h
    · refine ⟨j, hj, hjid, ?_⟩
      rw [← h]
      exact hst
    · rw [hst] at h
      exact absurd h (by decide)
  · intro n hn j' hj' hid
    have hmarks := checkQueueGo_capZero_marks cfg hcap s.jobQueue.length s
      (countOptimizing s.activeJobs) 0 hrun (by omega)
      (by rw [List.drop_zero]; exact hrec)
    exact hmarks n (by rw [List.drop_zero]; exact hn) j' hj' hid

/-- Witness for C10 on a one-job queue under a zero cache cap. -/
theorem c10_witness :
    userTooManyCachedItems cfgZero stateOneQueued 5 = some false ∧
    (checkQueue cfgZero stateOneQueued).ffmpegProcesses =
      stateOneQueued.ffmpegProcesses := by
  obtain ⟨h1, h2, _, _⟩ := c10 cfgZero stateOneQueued rfl (by decide) (by decide)
  exact ⟨h1 5, h2⟩

end OptimizedVersions
